import Mathlib

/-!
Shallow embedding of `src/Core/Src/POV_Display.c` (POV LED display driver).

The framebuffer `PovDisplayData` is a C array `volatile uint8_t [RESOLUTION]`,
modelled as a `List Nat` whose entries are byte values (`< 256`).  Machine
integers are modelled as `Nat`/`Int` with explicit `% 256`, `% 65536`,
`% 4294967296` reductions exactly where the C code stores into a
`uint8_t`/`uint16_t`/`uint32_t`, and `i8` two's-complement wrapping where a
value is stored into an `int8_t`.

The configuration macros `RESOLUTION`, `PIXELS`, `FONTSIZE` live in the header
`POV_Display.h`, which is not part of the sources; they are modelled from the
spec as an abstract build-time configuration record (`POVConfig`).
-/

/-- Modelled from the spec: build-time configuration constants from the missing
header `POV_Display.h` (§6: `RESOLUTION` column count, `PIXELS` rows per
column, `FONTSIZE` columns per glyph, clock frequency). `sysClockFreq` is the
`uint8_t` global holding the system clock frequency in MHz. -/
structure POVConfig where
  RESOLUTION : Nat
  PIXELS : Nat
  FONTSIZE : Nat
  sysClockFreq : Nat
deriving DecidableEq

/-- Modelled from the spec: the `ON` pixel-state macro from the missing header
(`1 = ON`, spec §3). -/
def ON : Nat := 1

/-- Modelled from the spec: the `OFF` pixel-state macro from the missing header
(`0 = OFF`, spec §3). -/
def OFF : Nat := 0

/-- The global `POVDigits = RESOLUTION / (FONTSIZE + 1)` (number of character
slots), as initialised in the C file. -/
def POVDigits (cfg : POVConfig) : Nat := cfg.RESOLUTION / (cfg.FONTSIZE + 1)

/-- Drawing-engine state: the framebuffer array `PovDisplayData` together with
the cursor globals `CursPos` and `PixelPos`. -/
structure DrawState where
  PovDisplayData : List Nat
  CursPos : Nat
  PixelPos : Nat
deriving DecidableEq

/-- A framebuffer is well formed when it has exactly `RESOLUTION` columns and
every column value fits in a `uint8_t`. -/
def FBWF (cfg : POVConfig) (fb : List Nat) : Prop :=
  fb.length = cfg.RESOLUTION ∧ ∀ v ∈ fb, v < 256

/-- Embedding of `POV_WritePixel`: bounds/state-checked single-bit set/clear of
`PovDisplayData[Column]`.  `|=` / `&= ~(1 << Row)` happen in `int` arithmetic
and are stored back into a `uint8_t`, hence the `% 256`. -/
def POV_WritePixel (cfg : POVConfig) (fb : List Nat) (Row Column State : Nat) :
    List Nat :=
  if (State = ON ∨ State = OFF) ∧ Row < cfg.PIXELS ∧ Column < cfg.RESOLUTION then
    if State = ON then
      fb.set Column ((fb.getD Column 0 ||| (1 <<< Row)) % 256)
    else
      fb.set Column ((fb.getD Column 0 &&& (4294967295 - (1 <<< Row))) % 256)
  else fb

/-- Embedding of `POV_ReadPixel`: returns `0` out of range, otherwise
`(PovDisplayData[Column] >> Row) & ON`. -/
def POV_ReadPixel (cfg : POVConfig) (fb : List Nat) (Row Column : Nat) : Nat :=
  if cfg.RESOLUTION ≤ Column ∨ cfg.PIXELS ≤ Row then 0
  else (fb.getD Column 0 >>> Row) &&& ON

/-- Embedding of `POV_WriteColumn`: bounds-checked whole-column store (the
argument is a `uint8_t`, hence `% 256`). -/
def POV_WriteColumn (cfg : POVConfig) (fb : List Nat) (Column Value : Nat) :
    List Nat :=
  if cfg.RESOLUTION ≤ Column then fb else fb.set Column (Value % 256)

/-- Embedding of `POV_ReadColumn`: bounds-checked whole-column load, `0` out of
range. -/
def POV_ReadColumn (cfg : POVConfig) (fb : List Nat) (Column : Nat) : Nat :=
  if cfg.RESOLUTION ≤ Column then 0 else fb.getD Column 0

/-- The `for (; PixelsCount < RESOLUTION; PixelsCount++)` loop body of
`POV_InvertDisplay`: `PovDisplayData[i] = ~PovDisplayData[i]` stored into a
`uint8_t` is `255 - v` on byte values.  `i` is the current index, the first
argument counts the remaining iterations. -/
def invertLoop : Nat → Nat → List Nat → List Nat
  | _, 0, fb => fb
  | i, n + 1, fb => invertLoop (i + 1) n (fb.set i (255 - fb.getD i 0 % 256))

/-- Embedding of `POV_InvertDisplay`: bitwise complement of every column. -/
def POV_InvertDisplay (cfg : POVConfig) (fb : List Nat) : List Nat :=
  invertLoop 0 cfg.RESOLUTION fb

/-- The clearing loop of `POV_Clear`: `PovDisplayData[i] = 0x00` for
`i < RESOLUTION`. -/
def clearLoop : Nat → Nat → List Nat → List Nat
  | _, 0, fb => fb
  | i, n + 1, fb => clearLoop (i + 1) n (fb.set i 0)

/-- Embedding of `POV_Clear`: zero every column, reset `PixelPos` and `CursPos`
to 0. -/
def POV_Clear (cfg : POVConfig) (s : DrawState) : DrawState :=
  { PovDisplayData := clearLoop 0 cfg.RESOLUTION s.PovDisplayData
    CursPos := 0
    PixelPos := 0 }

/-- The copy loop of `POV_DrawBitmap`:
`PovDisplayData[i] = MyBitmap[i]` for `i < BitmapSize`. -/
def drawBitmapLoop (data : List Nat) : Nat → Nat → List Nat → List Nat
  | _, 0, fb => fb
  | i, n + 1, fb => drawBitmapLoop data (i + 1) n (fb.set i (data.getD i 0))

/-- Embedding of `POV_DrawBitmap`.  The `const uint8_t *MyBitmap` pointer is
modelled as `Option (List Nat)` (`none` = `NULL`). -/
def POV_DrawBitmap (cfg : POVConfig) (fb : List Nat)
    (MyBitmap : Option (List Nat)) (BitmapSize : Nat) : List Nat :=
  match MyBitmap with
  | none => fb
  | some data =>
    if BitmapSize ≤ cfg.RESOLUTION then drawBitmapLoop data 0 BitmapSize fb
    else fb

/-- Embedding of `POV_SetCursor`: guarded update of `CursPos` and the derived
`PixelPos = CursPos * (FONTSIZE + 1)` (stored into a `uint8_t`). -/
def POV_SetCursor (cfg : POVConfig) (s : DrawState) (Pos : Nat) : DrawState :=
  if Pos < cfg.RESOLUTION / (cfg.FONTSIZE + 1) then
    { s with CursPos := Pos, PixelPos := Pos * (cfg.FONTSIZE + 1) % 256 }
  else s

/-- The glyph-copy loop of `POV_WriteChar`:
`for (PixelsCount = 0; PixelsCount < FONTSIZE; PixelsCount++) {
   PovDisplayData[PixelPos] = POV_Font[Chr - 32][PixelsCount];
   PixelPos = (PixelPos + 1) % RESOLUTION; }`.
The font table `POV_Font` is an external collaborator (spec §6) passed as an
opaque-lookup argument; `k` is `PixelsCount`, the second argument counts the
remaining iterations, `pp` is `PixelPos`.  Returns the updated framebuffer and
the final `PixelPos`. -/
def writeCharLoop (cfg : POVConfig) (font : Nat → Nat → Nat) (Chr : Nat) :
    Nat → Nat → Nat → List Nat → List Nat × Nat
  | _, 0, pp, fb => (fb, pp)
  | k, n + 1, pp, fb =>
    writeCharLoop cfg font Chr (k + 1) n ((pp + 1) % cfg.RESOLUTION)
      (fb.set pp (font (Chr - 32) k))

/-- Embedding of `POV_WriteChar`: copy the `FONTSIZE` glyph columns starting at
`PixelPos = CursPos * (FONTSIZE + 1)`, append one blank column, advance the
cursor modulo `POVDigits`. -/
def POV_WriteChar (cfg : POVConfig) (font : Nat → Nat → Nat) (s : DrawState)
    (Chr : Nat) : DrawState :=
  let pp := s.CursPos * (cfg.FONTSIZE + 1) % 256
  let r := writeCharLoop cfg font Chr 0 cfg.FONTSIZE pp s.PovDisplayData
  { PovDisplayData := r.1.set r.2 0
    CursPos := (s.CursPos + 1) % POVDigits cfg
    PixelPos := r.2 }

/-- Embedding of `POV_WriteCharInPos`: only when
`Pos < RESOLUTION / (FONTSIZE + 1)` does it set the cursor and write the
character; otherwise nothing at all happens. -/
def POV_WriteCharInPos (cfg : POVConfig) (font : Nat → Nat → Nat)
    (s : DrawState) (Chr Pos : Nat) : DrawState :=
  if Pos < cfg.RESOLUTION / (cfg.FONTSIZE + 1) then
    POV_WriteChar cfg font (POV_SetCursor cfg s Pos) Chr
  else s

/-- Embedding of `POV_WriteString`: write each character of the NUL-terminated
string in order (the string is modelled as the list of its bytes before the
terminator). -/
def POV_WriteString (cfg : POVConfig) (font : Nat → Nat → Nat) :
    DrawState → List Nat → DrawState
  | s, [] => s
  | s, c :: cs => POV_WriteString cfg font (POV_WriteChar cfg font s c) cs

/-- Embedding of `POV_WriteStringInPos`: `POV_SetCursor` (no-op when out of
range) followed by `POV_WriteString`, unconditionally. -/
def POV_WriteStringInPos (cfg : POVConfig) (font : Nat → Nat → Nat)
    (s : DrawState) (Str : List Nat) (Pos : Nat) : DrawState :=
  POV_WriteString cfg font (POV_SetCursor cfg s Pos) Str

/-- The inner edge loop of `POV_DrawFrame`:
`for (PixelsCountRow = Row1; PixelsCountRow <= Row2; PixelsCountRow++)
   PovDisplayData[c] |= (1 << PixelsCountRow);`
accumulated on the column value `v`; `r` is the current row, the second
argument counts the remaining iterations. -/
def frameRowLoop : Nat → Nat → Nat → Nat
  | _, 0, v => v
  | r, n + 1, v => frameRowLoop (r + 1) n ((v ||| (1 <<< r)) % 256)

/-- The outer column loop of `POV_DrawFrame`: each column from `Column1` to
`Column2` gets rows `Row1` and `Row2` set; the first and last columns also get
every row between `Row1` and `Row2` set. -/
def frameColLoop (Column1 Row1 Row2 Column2 : Nat) :
    Nat → Nat → List Nat → List Nat
  | _, 0, fb => fb
  | c, n + 1, fb =>
    let v1 := (fb.getD c 0 ||| ((1 <<< Row1) ||| (1 <<< Row2))) % 256
    let v2 := if c = Column1 ∨ c = Column2 then
        frameRowLoop Row1 (Row2 + 1 - Row1) v1
      else v1
    frameColLoop Column1 Row1 Row2 Column2 (c + 1) n (fb.set c v2)

/-- Embedding of `POV_DrawFrame`: guard
`PIXELS > Row2 && Row2 > Row1 && RESOLUTION > Column1 && RESOLUTION > Column2`,
then the column loop runs for `PixelsCountColumn` from `Column1` while
`<= Column2` (zero iterations when `Column1 > Column2`). -/
def POV_DrawFrame (cfg : POVConfig) (fb : List Nat)
    (Column1 Row1 Row2 Column2 : Nat) : List Nat :=
  if Row2 < cfg.PIXELS ∧ Row1 < Row2 ∧ Column1 < cfg.RESOLUTION ∧
      Column2 < cfg.RESOLUTION then
    frameColLoop Column1 Row1 Row2 Column2 Column1 (Column2 + 1 - Column1) fb
  else fb

/-- Two's-complement wrap of an integer into an `int8_t` value in
`[-128, 127]`, applied wherever the C code stores an `int` result into an
`int8_t` variable. -/
def i8 (x : Int) : Int := (x + 128) % 256 - 128

/-- C truncating (round-toward-zero) division by 2, used for
`(dx > dy ? dx : -dy) / 2`. -/
def tdiv2 (x : Int) : Int := if 0 ≤ x then x / 2 else -((-x) / 2)

/-- The `while (1)` loop of `POV_DrawLine` (Bresenham stepping), with explicit
fuel (first argument); `none` means the fuel ran out before the loop hit its
`break`.  `Column1`, `Row1` are `uint8_t` (stepping by `sx`/`sy` wraps mod
256), `err` is an `int8_t`. -/
def bresLoop (cfg : POVConfig) (Column2 Row2 : Nat) (dx dy sx sy : Int) :
    Nat → Nat → Nat → Int → List Nat → Option (List Nat)
  | 0, _, _, _, _ => none
  | fuel + 1, Column1, Row1, err, fb =>
    let fb1 := POV_WritePixel cfg fb Row1 Column1 ON
    if Row1 = Row2 ∧ Column1 = Column2 then some fb1
    else
      let e2 := err
      let err1 := if e2 > -dx then i8 (err - dy) else err
      let C1 := if e2 > -dx then (((Column1 : Int) + sx) % 256).toNat else Column1
      let err2 := if e2 < dy then i8 (err1 + dx) else err1
      let R1 := if e2 < dy then (((Row1 : Int) + sy) % 256).toNat else Row1
      bresLoop cfg Column2 Row2 dx dy sx sy fuel C1 R1 err2 fb1

/-- Embedding of `POV_DrawLine`: bounds guard, then Bresenham with
`dx = abs(Column2 - Column1)`, `dy = abs(Row2 - Row1)` stored into `int8_t`,
step signs `sx`, `sy`, and error term `(dx > dy ? dx : -dy) / 2`.  The C loop
is `while (1)`; the embedding gives it 65536 fuel steps and returns the input
framebuffer if the fuel runs out (termination is proved separately). -/
def POV_DrawLine (cfg : POVConfig) (fb : List Nat)
    (Column1 Row1 Column2 Row2 : Nat) : List Nat :=
  if cfg.PIXELS ≤ Row1 ∨ cfg.RESOLUTION ≤ Column1 ∨ cfg.PIXELS ≤ Row2 ∨
      cfg.RESOLUTION ≤ Column2 then fb
  else
    let dx := i8 ((Column2 : Int) - (Column1 : Int)).natAbs
    let sx : Int := if Column1 < Column2 then 1 else -1
    let dy := i8 ((Row2 : Int) - (Row1 : Int)).natAbs
    let sy : Int := if Row1 < Row2 then 1 else -1
    let err := i8 (tdiv2 (if dx > dy then dx else -dy))
    match bresLoop cfg Column2 Row2 dx dy sx sy 65536 Column1 Row1 err fb with
    | some fb1 => fb1
    | none => fb

/-- Embedding of `POV_DrawTriangle`: three `POV_DrawLine` calls connecting the
vertices pairwise. -/
def POV_DrawTriangle (cfg : POVConfig) (fb : List Nat)
    (Column1 Row1 Column2 Row2 Column3 Row3 : Nat) : List Nat :=
  POV_DrawLine cfg
    (POV_DrawLine cfg
      (POV_DrawLine cfg fb Column1 Row1 Column2 Row2)
      Column2 Row2 Column3 Row3)
    Column3 Row3 Column1 Row1

/-- Synchronization-engine state: the framebuffer shared with the drawing
engine, the pacer column counter `PixelsCounter` (`uint8_t`), the overflow
tally `ICU_TIM2_OVC` (`uint16_t`), the globals `Capture` (`uint16_t`) and
`TimeDifference` (`uint32_t`), the TIM2 counter register, the TIM3 auto-reload
register, TIM3 counter register, the last period argument handed to
`setTIM3InterruptPeriod`, and the trace of `POV_IntervalsDisplay` emissions
(most recent first, each a `PIXELS`-long pin image). -/
structure SyncState where
  PovDisplayData : List Nat
  PixelsCounter : Nat
  ICU_TIM2_OVC : Nat
  Capture : Nat
  TimeDifference : Nat
  tim2Counter : Nat
  tim3AutoReload : Nat
  tim3Counter : Nat
  tim3Period : Nat
  emitted : List (List Bool)
deriving DecidableEq

/-- Embedding of `POV_IntervalsDisplay`: the pin image written to the physical
output, one GPIO line per row bit (`valueToPresent & (1 << PixelsCount)`). -/
def POV_IntervalsDisplay (cfg : POVConfig) (valueToPresent : Nat) : List Bool :=
  (List.range cfg.PIXELS).map (fun PixelsCount => valueToPresent.testBit PixelsCount)

/-- Embedding of `setTIM3InterruptPeriod`: computes the `uint16_t` auto-reload
value `desiredPeriodMicroseconds * sysClockFreq - 1` (the subtraction and store
wrap mod 65536), zeroes the TIM3 counter, and programs the auto-reload
register.  `tim3Period` records the period argument itself. -/
def setTIM3InterruptPeriod (cfg : POVConfig) (s : SyncState)
    (desiredPeriodMicroseconds : Nat) : SyncState :=
  let autoReloadValue :=
    (desiredPeriodMicroseconds * (cfg.sysClockFreq % 256) + 65535) % 65536
  { s with tim3Counter := 0
           tim3AutoReload := autoReloadValue
           tim3Period := desiredPeriodMicroseconds }

/-- Embedding of the TIM3 branch of `HAL_TIM_PeriodElapsedCallback` (one pacer
period tick): increment the `uint8_t` counter `PixelsCounter`; if it is still
`< RESOLUTION`, emit `PovDisplayData[PixelsCounter]`, else do nothing. -/
def periodElapsedTIM3 (cfg : POVConfig) (s : SyncState) : SyncState :=
  let pc := (s.PixelsCounter + 1) % 256
  if pc < cfg.RESOLUTION then
    { s with PixelsCounter := pc
             emitted :=
               POV_IntervalsDisplay cfg (s.PovDisplayData.getD pc 0) :: s.emitted }
  else
    { s with PixelsCounter := pc }

/-- Embedding of the TIM2 branch of `HAL_TIM_PeriodElapsedCallback` (tick
counter overflow): increment the `uint16_t` overflow tally. -/
def periodElapsedTIM2 (s : SyncState) : SyncState :=
  { s with ICU_TIM2_OVC := (s.ICU_TIM2_OVC + 1) % 65536 }

/-- Embedding of `HAL_TIM_IC_CaptureCallback` (TIM2 input capture = reference
event).  `cap` is the content of the hardware capture register
(`HAL_TIM_ReadCapturedValue`, a `uint16_t`).  Resets `PixelsCounter` to 0,
emits `PovDisplayData[0]`, computes
`TimeDifference = Capture + ICU_TIM2_OVC * 65536` (`uint32_t`), programs TIM3
with the `uint16_t` period `TimeDifference / RESOLUTION`, and zeroes the
overflow tally and the TIM2 counter. -/
def captureCallback (cfg : POVConfig) (s : SyncState) (cap : Nat) : SyncState :=
  let s1 :=
    { s with PixelsCounter := 0
             emitted :=
               POV_IntervalsDisplay cfg (s.PovDisplayData.getD 0 0) :: s.emitted }
  let Capture := cap % 65536
  let TimeDifference := (Capture + s1.ICU_TIM2_OVC * 65536) % 4294967296
  let Period := (TimeDifference / cfg.RESOLUTION) % 65536
  let s2 := setTIM3InterruptPeriod cfg
    { s1 with Capture := Capture, TimeDifference := TimeDifference } Period
  { s2 with ICU_TIM2_OVC := 0, tim2Counter := 0 }

/-! ### Shared helper lemmas about list access and the small loops -/

theorem getD_set_self (l : List Nat) (i a : Nat) (h : i < l.length) :
    (l.set i a).getD i 0 = a := by
  simp [List.getD_eq_getElem?_getD, List.getElem?_set_self, h]

theorem getD_set_ne (l : List Nat) {i j : Nat} (a : Nat) (h : i ≠ j) :
    (l.set i a).getD j 0 = l.getD j 0 := by
  simp [List.getD_eq_getElem?_getD, List.getElem?_set_ne h]

theorem getD_mem (l : List Nat) (j : Nat) (h : j < l.length) :
    l.getD j 0 ∈ l := by
  rw [List.getD_eq_getElem l 0 h]
  exact List.getElem_mem h

theorem invertLoop_length : ∀ (n i : Nat) (fb : List Nat),
    (invertLoop i n fb).length = fb.length := by
  intro n
  induction n with
  | zero => intro i fb; rfl
  | succ n ih =>
    intro i fb
    show (invertLoop (i + 1) n (fb.set i _)).length = _
    rw [ih, List.length_set]

theorem invertLoop_getD : ∀ (n i : Nat) (fb : List Nat) (j : Nat),
    j < fb.length →
    (invertLoop i n fb).getD j 0 =
      if i ≤ j ∧ j < i + n then 255 - fb.getD j 0 % 256 else fb.getD j 0 := by
  intro n
  induction n with
  | zero =>
    intro i fb j _
    show fb.getD j 0 = _
    rw [if_neg (by omega)]
  | succ n ih =>
    intro i fb j hj
    show (invertLoop (i + 1) n (fb.set i _)).getD j 0 = _
    rw [ih (i + 1) _ j (by rw [List.length_set]; exact hj)]
    by_cases hji : j = i
    · subst hji
      rw [if_neg (by omega), if_pos (by omega), getD_set_self _ _ _ hj]
    · rw [getD_set_ne _ _ (fun h => hji h.symm)]
      by_cases hr : i + 1 ≤ j ∧ j < i + 1 + n
      · rw [if_pos hr, if_pos (by omega)]
      · rw [if_neg hr, if_neg (by omega)]

theorem clearLoop_length : ∀ (n i : Nat) (fb : List Nat),
    (clearLoop i n fb).length = fb.length := by
  intro n
  induction n with
  | zero => intro i fb; rfl
  | succ n ih =>
    intro i fb
    show (clearLoop (i + 1) n (fb.set i 0)).length = _
    rw [ih, List.length_set]

theorem clearLoop_getD : ∀ (n i : Nat) (fb : List Nat) (j : Nat),
    j < fb.length →
    (clearLoop i n fb).getD j 0 =
      if i ≤ j ∧ j < i + n then 0 else fb.getD j 0 := by
  intro n
  induction n with
  | zero =>
    intro i fb j _
    show fb.getD j 0 = _
    rw [if_neg (by omega)]
  | succ n ih =>
    intro i fb j hj
    show (clearLoop (i + 1) n (fb.set i 0)).getD j 0 = _
    rw [ih (i + 1) _ j (by rw [List.length_set]; exact hj)]
    by_cases hji : j = i
    · subst hji
      rw [if_neg (by omega), if_pos (by omega), getD_set_self _ _ _ hj]
    · rw [getD_set_ne _ _ (fun h => hji h.symm)]
      by_cases hr : i + 1 ≤ j ∧ j < i + 1 + n
      · rw [if_pos hr, if_pos (by omega)]
      · rw [if_neg hr, if_neg (by omega)]

theorem drawBitmapLoop_length (data : List Nat) : ∀ (n i : Nat) (fb : List Nat),
    (drawBitmapLoop data i n fb).length = fb.length := by
  intro n
  induction n with
  | zero => intro i fb; rfl
  | succ n ih =>
    intro i fb
    show (drawBitmapLoop data (i + 1) n (fb.set i _)).length = _
    rw [ih, List.length_set]

theorem drawBitmapLoop_getD (data : List Nat) : ∀ (n i : Nat) (fb : List Nat) (j : Nat),
    j < fb.length →
    (drawBitmapLoop data i n fb).getD j 0 =
      if i ≤ j ∧ j < i + n then data.getD j 0 else fb.getD j 0 := by
  intro n
  induction n with
  | zero =>
    intro i fb j _
    show fb.getD j 0 = _
    rw [if_neg (by omega)]
  | succ n ih =>
    intro i fb j hj
    show (drawBitmapLoop data (i + 1) n (fb.set i _)).getD j 0 = _
    rw [ih (i + 1) _ j (by rw [List.length_set]; exact hj)]
    by_cases hji : j = i
    · subst hji
      rw [if_neg (by omega), if_pos (by omega), getD_set_self _ _ _ hj]
    · rw [getD_set_ne _ _ (fun h => hji h.symm)]
      by_cases hr : i + 1 ≤ j ∧ j < i + 1 + n
      · rw [if_pos hr, if_pos (by omega)]
      · rw [if_neg hr, if_neg (by omega)]

/-! ### Claim C8: invert twice restores the framebuffer -/

/-- Claim C8: for every well-formed framebuffer (its `RESOLUTION` columns are
byte values, as the `uint8_t` array guarantees), applying `POV_InvertDisplay`
twice restores the original contents exactly, column for column. -/
theorem thmC8 (cfg : POVConfig) (fb : List Nat) (h : FBWF cfg fb) :
    POV_InvertDisplay cfg (POV_InvertDisplay cfg fb) = fb := by
  obtain ⟨hlen, hval⟩ := h
  have h1len : (POV_InvertDisplay cfg fb).length = fb.length :=
    invertLoop_length _ _ _
  apply List.ext_getElem (by
    show (invertLoop 0 cfg.RESOLUTION (POV_InvertDisplay cfg fb)).length = fb.length
    rw [invertLoop_length, h1len])
  intro i hi1 hi2
  rw [← List.getD_eq_getElem _ 0 hi1, ← List.getD_eq_getElem _ 0 hi2]
  have hiR : i < cfg.RESOLUTION := by rw [← hlen]; exact hi2
  have hv : fb.getD i 0 < 256 := hval _ (getD_mem fb i hi2)
  show (invertLoop 0 cfg.RESOLUTION (POV_InvertDisplay cfg fb)).getD i 0 = _
  rw [invertLoop_getD _ _ _ _ (by rw [h1len]; exact hi2), if_pos ⟨Nat.zero_le i, by omega⟩]
  show 255 - (invertLoop 0 cfg.RESOLUTION fb).getD i 0 % 256 = _
  rw [invertLoop_getD _ _ _ _ hi2, if_pos ⟨Nat.zero_le i, by omega⟩]
  omega

/-- Witness for C8 at a concrete configuration and framebuffer. -/
theorem thmC8_witness :
    FBWF ⟨4, 8, 5, 72⟩ [10, 255, 0, 77] ∧
      POV_InvertDisplay ⟨4, 8, 5, 72⟩ (POV_InvertDisplay ⟨4, 8, 5, 72⟩ [10, 255, 0, 77]) =
        [10, 255, 0, 77] := by
  refine ⟨?_, thmC8 _ _ ?_⟩ <;> · unfold FBWF; decide

/-! ### Claim C3: writePixel / readPixel round trip and out-of-range no-ops -/

theorem read_or_bit (v r : Nat) (hr : r < 8) :
    (((v ||| (1 <<< r)) % 256) >>> r) &&& 1 = 1 := by
  rw [Nat.and_one_is_mod, Nat.shiftRight_eq_div_pow]
  have h : Nat.testBit ((v ||| (1 <<< r)) % 256) r = true := by
    rw [show (256 : Nat) = 2 ^ 8 by norm_num, Nat.testBit_mod_two_pow,
      Nat.shiftLeft_eq, one_mul, Nat.testBit_lor, Nat.testBit_two_pow_self]
    simp [hr]
  rw [Nat.testBit_to_div_mod] at h
  exact of_decide_eq_true h

theorem read_and_bit (v r : Nat) (hr : r < 8) :
    (((v &&& (4294967295 - (1 <<< r))) % 256) >>> r) &&& 1 = 0 := by
  rw [Nat.and_one_is_mod, Nat.shiftRight_eq_div_pow]
  have hmask : Nat.testBit (4294967295 - (1 <<< r)) r = false := by
    interval_cases r <;> decide
  have h : Nat.testBit ((v &&& (4294967295 - (1 <<< r))) % 256) r = false := by
    rw [show (256 : Nat) = 2 ^ 8 by norm_num, Nat.testBit_mod_two_pow,
      Nat.testBit_land, hmask]
    simp
  rw [Nat.testBit_to_div_mod] at h
  have h2 := of_decide_eq_false h
  omega

/-- Claim C3: on a `RESOLUTION`-column framebuffer (with the byte-wide columns
of the hardware, `PIXELS ≤ 8`), writing a valid pixel and reading it back at
the same coordinates returns the written state, and for out-of-range
coordinates `POV_ReadPixel` returns 0 while `POV_WritePixel` leaves the
framebuffer entirely unchanged. -/
theorem thmC3 (cfg : POVConfig) (fb : List Nat)
    (hlen : fb.length = cfg.RESOLUTION) (hPIX : cfg.PIXELS ≤ 8)
    (Row Column State : Nat) :
    (Row < cfg.PIXELS → Column < cfg.RESOLUTION → (State = ON ∨ State = OFF) →
      POV_ReadPixel cfg (POV_WritePixel cfg fb Row Column State) Row Column = State)
    ∧ (cfg.RESOLUTION ≤ Column ∨ cfg.PIXELS ≤ Row →
      POV_ReadPixel cfg fb Row Column = 0 ∧
      ∀ St, POV_WritePixel cfg fb Row Column St = fb) := by
  constructor
  · intro hR hC hS
    have hr8 : Row < 8 := Nat.lt_of_lt_of_le hR hPIX
    rcases hS with rfl | rfl
    · have hw : POV_WritePixel cfg fb Row Column ON =
          fb.set Column ((fb.getD Column 0 ||| (1 <<< Row)) % 256) := by
        unfold POV_WritePixel
        rw [if_pos ⟨Or.inl rfl, hR, hC⟩, if_pos rfl]
      rw [hw]
      unfold POV_ReadPixel
      rw [if_neg (by omega), getD_set_self _ _ _ (by omega)]
      exact read_or_bit _ _ hr8
    · have hw : POV_WritePixel cfg fb Row Column OFF =
          fb.set Column ((fb.getD Column 0 &&& (4294967295 - (1 <<< Row))) % 256) := by
        unfold POV_WritePixel
        rw [if_pos ⟨Or.inr rfl, hR, hC⟩, if_neg (by unfold ON OFF; omega)]
      rw [hw]
      unfold POV_ReadPixel
      rw [if_neg (by omega), getD_set_self _ _ _ (by omega)]
      exact read_and_bit _ _ hr8
  · intro h
    constructor
    · unfold POV_ReadPixel
      rw [if_pos h]
    · intro St
      unfold POV_WritePixel
      rw [if_neg (by omega)]

/-- Witness for C3 at concrete inputs: an in-range round trip and an
out-of-range read/write. -/
theorem thmC3_witness :
    POV_ReadPixel ⟨4, 8, 5, 72⟩
        (POV_WritePixel ⟨4, 8, 5, 72⟩ [7, 0, 0, 9] 2 1 ON) 2 1 = ON ∧
      POV_ReadPixel ⟨4, 8, 5, 72⟩ [7, 0, 0, 9] 2 9 = 0 ∧
      POV_WritePixel ⟨4, 8, 5, 72⟩ [7, 0, 0, 9] 2 9 ON = [7, 0, 0, 9] := by
  refine ⟨(thmC3 ⟨4, 8, 5, 72⟩ [7, 0, 0, 9] (by decide) (by decide) 2 1 ON).1
      (by decide) (by decide) (Or.inl rfl),
    ((thmC3 ⟨4, 8, 5, 72⟩ [7, 0, 0, 9] (by decide) (by decide) 2 9 ON).2
      (by decide)).1,
    ((thmC3 ⟨4, 8, 5, 72⟩ [7, 0, 0, 9] (by decide) (by decide) 2 9 ON).2
      (by decide)).2 ON⟩

/-! ### Claim C4: drawBitmap copies a prefix; trailing columns are preserved -/

/-- Counterexample to claim C4 as stated: with `RESOLUTION = 2`,
`drawBitmap([5], 1)` on framebuffer `[0, 7]` yields `[5, 7]` — the trailing
column beyond `size` keeps its previous value `7`, so the operation does
preserve the existing trailing columns, contrary to the claim. -/
theorem thmC4_counterexample :
    POV_DrawBitmap ⟨2, 8, 5, 72⟩ [0, 7] (some [5]) 1 = [5, 7] ∧
      [0, 7].getD 1 0 = 7 := by
  constructor <;> decide

/-- Claim C4 (amended): when the data pointer is non-null and
`size ≤ RESOLUTION`, `POV_DrawBitmap` copies exactly `size` columns verbatim
into columns `0 … size-1` and leaves every trailing column unchanged; when the
pointer is null or `size > RESOLUTION` the whole operation is a no-op. -/
theorem thmC4 (cfg : POVConfig) (fb data : List Nat) (size : Nat)
    (hlen : fb.length = cfg.RESOLUTION) :
    POV_DrawBitmap cfg fb none size = fb
    ∧ (cfg.RESOLUTION < size → POV_DrawBitmap cfg fb (some data) size = fb)
    ∧ (size ≤ cfg.RESOLUTION →
        (∀ j, j < size →
          (POV_DrawBitmap cfg fb (some data) size).getD j 0 = data.getD j 0)
        ∧ ∀ j, size ≤ j →
          (POV_DrawBitmap cfg fb (some data) size).getD j 0 = fb.getD j 0) := by
  refine ⟨rfl, ?_, ?_⟩
  · intro h
    simp only [POV_DrawBitmap]
    rw [if_neg (by omega)]
  · intro h
    simp only [POV_DrawBitmap]
    rw [if_pos h]
    constructor
    · intro j hj
      rw [drawBitmapLoop_getD data size 0 fb j (by omega), if_pos ⟨Nat.zero_le j, by omega⟩]
    · intro j hj
      by_cases hjl : j < fb.length
      · rw [drawBitmapLoop_getD data size 0 fb j hjl, if_neg (by omega)]
      · rw [List.getD_eq_default _ _ (by rw [drawBitmapLoop_length]; omega),
          List.getD_eq_default _ _ (by omega)]

/-- Witness for C4 at a concrete input. -/
theorem thmC4_witness :
    (POV_DrawBitmap ⟨3, 8, 5, 72⟩ [1, 2, 3] (some [9, 8]) 2).getD 0 0 = 9 ∧
      (POV_DrawBitmap ⟨3, 8, 5, 72⟩ [1, 2, 3] (some [9, 8]) 2).getD 2 0 = 3 := by
  have h := thmC4 ⟨3, 8, 5, 72⟩ [1, 2, 3] [9, 8] 2 (by decide)
  exact ⟨(h.2.2 (by decide)).1 0 (by decide), (h.2.2 (by decide)).2 2 (by decide)⟩

/-! ### Claim C5: writeCharAt / writeStringAt with out-of-range slot -/

/-- Counterexample to claim C5 as stated: with `RESOLUTION = 12`,
`FONTSIZE = 5` (slot count 2) and the constant font `1`, calling
`POV_WriteCharInPos` with out-of-range slot 5 leaves the state completely
unchanged — the character is NOT written at the current cursor position,
because the whole call (not just `POV_SetCursor`) is guarded by the slot
check. -/
theorem thmC5_counterexample :
    POV_WriteCharInPos ⟨12, 8, 5, 72⟩ (fun _ _ => 1)
        ⟨List.replicate 12 0, 0, 0⟩ 65 5 = ⟨List.replicate 12 0, 0, 0⟩ ∧
      POV_WriteChar ⟨12, 8, 5, 72⟩ (fun _ _ => 1)
        ⟨List.replicate 12 0, 0, 0⟩ 65 ≠ ⟨List.replicate 12 0, 0, 0⟩ := by
  constructor <;> decide

/-- Claim C5 (amended): for an out-of-range slot, `POV_SetCursor` is a no-op
and `POV_WriteStringInPos` therefore writes the string starting at the current
(unchanged) cursor position, but `POV_WriteCharInPos` skips the character
write entirely (the whole call is a no-op). -/
theorem thmC5 (cfg : POVConfig) (font : Nat → Nat → Nat) (s : DrawState)
    (Chr Pos : Nat) (Str : List Nat)
    (h : cfg.RESOLUTION / (cfg.FONTSIZE + 1) ≤ Pos) :
    POV_WriteCharInPos cfg font s Chr Pos = s
    ∧ POV_SetCursor cfg s Pos = s
    ∧ POV_WriteStringInPos cfg font s Str Pos = POV_WriteString cfg font s Str := by
  have hsc : POV_SetCursor cfg s Pos = s := by
    unfold POV_SetCursor
    rw [if_neg (by omega)]
  refine ⟨?_, hsc, ?_⟩
  · unfold POV_WriteCharInPos
    rw [if_neg (by omega)]
  · unfold POV_WriteStringInPos
    rw [hsc]

/-- Witness for C5 at a concrete out-of-range slot. -/
theorem thmC5_witness :
    POV_WriteCharInPos ⟨12, 8, 5, 72⟩ (fun _ _ => 7)
        ⟨List.replicate 12 0, 1, 6⟩ 66 9 = ⟨List.replicate 12 0, 1, 6⟩ ∧
      POV_WriteStringInPos ⟨12, 8, 5, 72⟩ (fun _ _ => 7)
          ⟨List.replicate 12 0, 1, 6⟩ [65, 66] 9 =
        POV_WriteString ⟨12, 8, 5, 72⟩ (fun _ _ => 7)
          ⟨List.replicate 12 0, 1, 6⟩ [65, 66] := by
  have h := thmC5 ⟨12, 8, 5, 72⟩ (fun _ _ => 7) ⟨List.replicate 12 0, 1, 6⟩
    66 9 [65, 66] (by decide)
  exact ⟨h.1, h.2.2⟩

/-! ### Claim C7: drawFrame draws the rectangle border -/

theorem shift_and_one (x r : Nat) : (x >>> r) &&& 1 = if x.testBit r then 1 else 0 := by
  rw [Nat.and_one_is_mod, Nat.shiftRight_eq_div_pow]
  rcases h : x.testBit r with _ | _ <;>
    rw [Nat.testBit_to_div_mod] at h
  · simp only [decide_eq_false_iff_not] at h
    simp only [Bool.false_eq_true, if_false]
    omega
  · simp only [decide_eq_true_eq] at h
    simp [h]

theorem pow_testBit (r t : Nat) : (1 <<< r).testBit t = decide (t = r) := by
  rw [Nat.shiftLeft_eq, one_mul]
  by_cases h : r = t
  · subst h
    simp [Nat.testBit_two_pow_self]
  · rw [Nat.testBit_two_pow_of_ne h]
    simp [Ne.symm h]

theorem mod256_testBit (x t : Nat) (ht : t < 8) :
    (x % 256).testBit t = x.testBit t := by
  rw [show (256 : Nat) = 2 ^ 8 by norm_num, Nat.testBit_mod_two_pow]
  simp [ht]

theorem mask2_testBit (v R1 R2 t : Nat) (ht : t < 8) :
    ((v ||| ((1 <<< R1) ||| (1 <<< R2))) % 256).testBit t =
      (v.testBit t || decide (t = R1) || decide (t = R2)) := by
  rw [mod256_testBit _ _ ht, Nat.testBit_lor, Nat.testBit_lor, pow_testBit,
    pow_testBit, Bool.or_assoc]

/-- `POV_ReadPixel` characterised through `Nat.testBit`. -/
theorem readPixel_testBit (cfg : POVConfig) (fb : List Nat) (Row Column : Nat) :
    POV_ReadPixel cfg fb Row Column =
      if Column < cfg.RESOLUTION ∧ Row < cfg.PIXELS then
        (if (fb.getD Column 0).testBit Row then 1 else 0)
      else 0 := by
  unfold POV_ReadPixel
  by_cases h : cfg.RESOLUTION ≤ Column ∨ cfg.PIXELS ≤ Row
  · rw [if_pos h, if_neg (by omega)]
  · rw [if_neg h, if_pos (by omega)]
    show (_ >>> _) &&& ON = _
    unfold ON
    rw [shift_and_one]

theorem frameRowLoop_testBit : ∀ (n r v t : Nat), t < 8 →
    ((frameRowLoop r n v).testBit t = true ↔
      (v.testBit t = true ∨ (r ≤ t ∧ t < r + n))) := by
  intro n
  induction n with
  | zero =>
    intro r v t _
    show v.testBit t = true ↔ _
    constructor
    · exact Or.inl
    · rintro (h | h)
      · exact h
      · omega
  | succ n ih =>
    intro r v t ht
    show (frameRowLoop (r + 1) n ((v ||| (1 <<< r)) % 256)).testBit t = true ↔ _
    rw [ih (r + 1) _ t ht, mod256_testBit _ _ ht, Nat.testBit_lor, pow_testBit]
    simp only [Bool.or_eq_true, decide_eq_true_eq]
    constructor
    · rintro ((h | h) | h)
      · exact Or.inl h
      · right; omega
      · right; omega
    · rintro (h | h)
      · exact Or.inl (Or.inl h)
      · by_cases htr : t = r
        · exact Or.inl (Or.inr htr)
        · right; omega

theorem frameColLoop_length (C1 R1 R2 C2 : Nat) : ∀ (n c : Nat) (fb : List Nat),
    (frameColLoop C1 R1 R2 C2 c n fb).length = fb.length := by
  intro n
  induction n with
  | zero => intro c fb; rfl
  | succ n ih =>
    intro c fb
    show (frameColLoop C1 R1 R2 C2 (c + 1) n (fb.set c _)).length = _
    rw [ih, List.length_set]

theorem frameColLoop_getD (C1 R1 R2 C2 : Nat) :
    ∀ (n c : Nat) (fb : List Nat) (j : Nat), j < fb.length →
    (frameColLoop C1 R1 R2 C2 c n fb).getD j 0 =
      if c ≤ j ∧ j < c + n then
        (if j = C1 ∨ j = C2 then
          frameRowLoop R1 (R2 + 1 - R1)
            ((fb.getD j 0 ||| ((1 <<< R1) ||| (1 <<< R2))) % 256)
        else (fb.getD j 0 ||| ((1 <<< R1) ||| (1 <<< R2))) % 256)
      else fb.getD j 0 := by
  intro n
  induction n with
  | zero =>
    intro c fb j _
    show fb.getD j 0 = _
    rw [if_neg (by omega)]
  | succ n ih =>
    intro c fb j hj
    rw [show frameColLoop C1 R1 R2 C2 c (n + 1) fb =
        frameColLoop C1 R1 R2 C2 (c + 1) n
          (fb.set c
            (if c = C1 ∨ c = C2 then
              frameRowLoop R1 (R2 + 1 - R1)
                ((fb.getD c 0 ||| ((1 <<< R1) ||| (1 <<< R2))) % 256)
            else (fb.getD c 0 ||| ((1 <<< R1) ||| (1 <<< R2))) % 256)) from rfl]
    rw [ih (c + 1) _ j (by rw [List.length_set]; exact hj)]
    by_cases hjc : j = c
    · subst hjc
      rw [if_neg (show ¬(j + 1 ≤ j ∧ j < j + 1 + n) by omega),
        if_pos (show j ≤ j ∧ j < j + (n + 1) by omega), getD_set_self _ _ _ hj]
    · rw [getD_set_ne _ _ (fun h => hjc h.symm)]
      by_cases hr : c + 1 ≤ j ∧ j < c + 1 + n
      · rw [if_pos hr, if_pos (show c ≤ j ∧ j < c + (n + 1) by omega)]
      · rw [if_neg hr, if_neg (show ¬(c ≤ j ∧ j < c + (n + 1)) by omega)]

/-- Bit-level characterisation of the framebuffer after `POV_DrawFrame`'s
column loop: a bit `t < 8` of column `j` is set iff it was set before, or `j`
lies in the swept column range and `t` is one of the two horizontal rows, or
`j` is one of the two edge columns and `t` lies between the two rows. -/
theorem frameColLoop_pixel (C1 R1 R2 C2 : Nat) (hRR : R1 < R2)
    (fb : List Nat) (hCC : C1 ≤ C2) (j : Nat) (hj : j < fb.length)
    (t : Nat) (ht : t < 8) :
    (((frameColLoop C1 R1 R2 C2 C1 (C2 + 1 - C1) fb).getD j 0).testBit t = true ↔
      ((fb.getD j 0).testBit t = true ∨
        (C1 ≤ j ∧ j ≤ C2 ∧
          (t = R1 ∨ t = R2 ∨ ((j = C1 ∨ j = C2) ∧ R1 ≤ t ∧ t ≤ R2))))) := by
  rw [frameColLoop_getD C1 R1 R2 C2 (C2 + 1 - C1) C1 fb j hj]
  by_cases hreg : C1 ≤ j ∧ j < C1 + (C2 + 1 - C1)
  · rw [if_pos hreg]
    by_cases hedge : j = C1 ∨ j = C2
    · rw [if_pos hedge, frameRowLoop_testBit _ _ _ _ ht, mask2_testBit _ _ _ _ ht]
      simp only [Bool.or_eq_true, decide_eq_true_eq]
      constructor
      · rintro (((h | h) | h) | h)
        · exact Or.inl h
        · exact Or.inr ⟨by omega, by omega, Or.inl h⟩
        · exact Or.inr ⟨by omega, by omega, Or.inr (Or.inl h)⟩
        · exact Or.inr ⟨by omega, by omega, Or.inr (Or.inr ⟨hedge, h.1, by omega⟩)⟩
      · rintro (h | ⟨h1, h2, h3 | h3 | ⟨hj2, h4, h5⟩⟩)
        · exact Or.inl (Or.inl (Or.inl h))
        · exact Or.inl (Or.inl (Or.inr h3))
        · exact Or.inl (Or.inr h3)
        · right; omega
    · rw [if_neg hedge, mask2_testBit _ _ _ _ ht]
      simp only [Bool.or_eq_true, decide_eq_true_eq]
      constructor
      · rintro ((h | h) | h)
        · exact Or.inl h
        · exact Or.inr ⟨by omega, by omega, Or.inl h⟩
        · exact Or.inr ⟨by omega, by omega, Or.inr (Or.inl h)⟩
      · rintro (h | ⟨h1, h2, h3 | h3 | ⟨hj2, h4, h5⟩⟩)
        · exact Or.inl (Or.inl h)
        · exact Or.inl (Or.inr h3)
        · exact Or.inr h3
        · exact absurd hj2 hedge
  · rw [if_neg hreg]
    constructor
    · exact Or.inl
    · rintro (h | ⟨h1, h2, _⟩)
      · exact h
      · exact absurd ⟨h1, by omega⟩ hreg

/-- Claim C7: under the validity precondition (`Row2 < PIXELS`,
`Row1 < Row2`, both columns `< RESOLUTION`) and `Column1 ≤ Column2`,
`POV_DrawFrame` sets rows `Row1` and `Row2` ON across every column from
`Column1` to `Column2`, sets all rows between `Row1` and `Row2` ON at columns
`Column1` and `Column2`, leaves every other column untouched, and never clears
a pixel that was already ON.  (`PIXELS ≤ 8` is the byte-wide hardware column;
the framebuffer has `RESOLUTION` columns.) -/
theorem thmC7 (cfg : POVConfig) (fb : List Nat)
    (hlen : fb.length = cfg.RESOLUTION) (hPIX : cfg.PIXELS ≤ 8)
    (Column1 Row1 Row2 Column2 : Nat)
    (hR2 : Row2 < cfg.PIXELS) (hRR : Row1 < Row2)
    (hC1 : Column1 < cfg.RESOLUTION) (hC2 : Column2 < cfg.RESOLUTION)
    (hCC : Column1 ≤ Column2) :
    (∀ c, Column1 ≤ c → c ≤ Column2 →
      POV_ReadPixel cfg (POV_DrawFrame cfg fb Column1 Row1 Row2 Column2) Row1 c = ON ∧
      POV_ReadPixel cfg (POV_DrawFrame cfg fb Column1 Row1 Row2 Column2) Row2 c = ON)
    ∧ (∀ r, Row1 ≤ r → r ≤ Row2 →
      POV_ReadPixel cfg (POV_DrawFrame cfg fb Column1 Row1 Row2 Column2) r Column1 = ON ∧
      POV_ReadPixel cfg (POV_DrawFrame cfg fb Column1 Row1 Row2 Column2) r Column2 = ON)
    ∧ (∀ c, c < Column1 ∨ Column2 < c →
      (POV_DrawFrame cfg fb Column1 Row1 Row2 Column2).getD c 0 = fb.getD c 0)
    ∧ (∀ r c, POV_ReadPixel cfg fb r c = ON →
      POV_ReadPixel cfg (POV_DrawFrame cfg fb Column1 Row1 Row2 Column2) r c = ON) := by
  have hunf : POV_DrawFrame cfg fb Column1 Row1 Row2 Column2 =
      frameColLoop Column1 Row1 Row2 Column2 Column1 (Column2 + 1 - Column1) fb := by
    unfold POV_DrawFrame
    rw [if_pos ⟨hR2, hRR, hC1, hC2⟩]
  refine ⟨?_, ?_, ?_, ?_⟩
  · intro c hc1 hc2
    constructor
    · rw [hunf, readPixel_testBit, if_pos ⟨by omega, by omega⟩,
        if_pos ((frameColLoop_pixel _ _ _ _ hRR fb hCC c (by omega) Row1
          (by omega)).mpr (Or.inr ⟨hc1, hc2, Or.inl rfl⟩))]
      rfl
    · rw [hunf, readPixel_testBit, if_pos ⟨by omega, by omega⟩,
        if_pos ((frameColLoop_pixel _ _ _ _ hRR fb hCC c (by omega) Row2
          (by omega)).mpr (Or.inr ⟨hc1, hc2, Or.inr (Or.inl rfl)⟩))]
      rfl
  · intro r hr1 hr2
    constructor
    · rw [hunf, readPixel_testBit, if_pos ⟨by omega, by omega⟩,
        if_pos ((frameColLoop_pixel _ _ _ _ hRR fb hCC Column1 (by omega) r
          (by omega)).mpr (Or.inr ⟨le_refl _, hCC,
            Or.inr (Or.inr ⟨Or.inl rfl, hr1, hr2⟩)⟩))]
      rfl
    · rw [hunf, readPixel_testBit, if_pos ⟨by omega, by omega⟩,
        if_pos ((frameColLoop_pixel _ _ _ _ hRR fb hCC Column2 (by omega) r
          (by omega)).mpr (Or.inr ⟨hCC, le_refl _,
            Or.inr (Or.inr ⟨Or.inr rfl, hr1, hr2⟩)⟩))]
      rfl
  · intro c hc
    rw [hunf]
    by_cases hcl : c < fb.length
    · rw [frameColLoop_getD _ _ _ _ _ _ fb c hcl,
        if_neg (show ¬(Column1 ≤ c ∧ c < Column1 + (Column2 + 1 - Column1)) by omega)]
    · rw [List.getD_eq_default _ _ (by rw [frameColLoop_length]; omega),
        List.getD_eq_default _ _ (by omega)]
  · intro r c hrc
    rw [readPixel_testBit] at hrc
    by_cases hb : c < cfg.RESOLUTION ∧ r < cfg.PIXELS
    · rw [if_pos hb] at hrc
      by_cases hbit : (fb.getD c 0).testBit r
      · rw [hunf, readPixel_testBit, if_pos hb,
          if_pos ((frameColLoop_pixel _ _ _ _ hRR fb hCC c (by omega) r
            (by omega)).mpr (Or.inl hbit))]
        rfl
      · rw [if_neg hbit] at hrc
        exact absurd hrc (by decide)
    · rw [if_neg hb] at hrc
      exact absurd hrc (by decide)

/-- Witness for C7 at the spec's concrete example `drawFrame(1,1,3,4)` on an
8-column, 8-row display. -/
theorem thmC7_witness :
    POV_ReadPixel ⟨8, 8, 5, 72⟩
        (POV_DrawFrame ⟨8, 8, 5, 72⟩ (List.replicate 8 0) 1 1 3 4) 1 2 = ON ∧
      POV_ReadPixel ⟨8, 8, 5, 72⟩
        (POV_DrawFrame ⟨8, 8, 5, 72⟩ (List.replicate 8 0) 1 1 3 4) 2 4 = ON ∧
      (POV_DrawFrame ⟨8, 8, 5, 72⟩ (List.replicate 8 0) 1 1 3 4).getD 5 0 =
        (List.replicate 8 (0 : Nat)).getD 5 0 := by
  have h := thmC7 ⟨8, 8, 5, 72⟩ (List.replicate 8 0) (by decide) (by decide)
    1 1 3 4 (by decide) (by decide) (by decide) (by decide) (by decide)
  exact ⟨(h.1 2 (by decide) (by decide)).1, (h.2.1 2 (by decide) (by decide)).2,
    h.2.2.1 5 (by decide)⟩

/-! ### Claims C9 and C10: text engine -/

/-- Characterisation of the glyph-copy loop when the written window
`[pp, pp+n)` stays strictly inside the framebuffer: the final `PixelPos` is
`pp + n`, the length is preserved, and exactly the window cells receive the
successive font columns. -/
theorem writeCharLoop_spec (cfg : POVConfig) (font : Nat → Nat → Nat) (Chr : Nat) :
    ∀ (n k pp : Nat) (fb : List Nat),
    pp + n < cfg.RESOLUTION → fb.length = cfg.RESOLUTION →
    (writeCharLoop cfg font Chr k n pp fb).2 = pp + n
    ∧ (writeCharLoop cfg font Chr k n pp fb).1.length = cfg.RESOLUTION
    ∧ (∀ j, (writeCharLoop cfg font Chr k n pp fb).1.getD j 0 =
        if pp ≤ j ∧ j < pp + n then font (Chr - 32) (k + (j - pp))
        else fb.getD j 0) := by
  intro n
  induction n with
  | zero =>
    intro k pp fb _ hlen
    refine ⟨rfl, hlen, ?_⟩
    intro j
    show fb.getD j 0 = _
    rw [if_neg (by omega)]
  | succ n ih =>
    intro k pp fb hpp hlen
    have hpp1 : pp + 1 < cfg.RESOLUTION := by omega
    have hmod : (pp + 1) % cfg.RESOLUTION = pp + 1 := Nat.mod_eq_of_lt hpp1
    have hstep : writeCharLoop cfg font Chr k (n + 1) pp fb =
        writeCharLoop cfg font Chr (k + 1) n ((pp + 1) % cfg.RESOLUTION)
          (fb.set pp (font (Chr - 32) k)) := rfl
    rw [hstep, hmod]
    obtain ⟨hsnd, hlen2, hget⟩ := ih (k + 1) (pp + 1)
      (fb.set pp (font (Chr - 32) k)) (by omega)
      (by rw [List.length_set]; exact hlen)
    refine ⟨by rw [hsnd]; omega, hlen2, ?_⟩
    intro j
    rw [hget j]
    by_cases hjp : j = pp
    · subst hjp
      rw [if_neg (by omega), if_pos (by omega),
        getD_set_self _ _ _ (by omega), Nat.sub_self, Nat.add_zero]
    · rw [getD_set_ne _ _ (fun h => hjp h.symm)]
      by_cases hr : pp + 1 ≤ j ∧ j < pp + 1 + n
      · rw [if_pos hr, if_pos (show pp ≤ j ∧ j < pp + (n + 1) by omega)]
        have : k + 1 + (j - (pp + 1)) = k + (j - pp) := by omega
        rw [this]
      · rw [if_neg hr, if_neg (show ¬(pp ≤ j ∧ j < pp + (n + 1)) by omega)]

/-- Characterisation of `POV_WriteChar` when the cursor's derived window fits
inside the framebuffer. -/
theorem writeChar_spec (cfg : POVConfig) (font : Nat → Nat → Nat)
    (s : DrawState) (Chr : Nat)
    (hlen : s.PovDisplayData.length = cfg.RESOLUTION)
    (hRES : cfg.RESOLUTION ≤ 256)
    (hcurs : s.CursPos * (cfg.FONTSIZE + 1) + cfg.FONTSIZE < cfg.RESOLUTION) :
    (POV_WriteChar cfg font s Chr).CursPos = (s.CursPos + 1) % POVDigits cfg
    ∧ (POV_WriteChar cfg font s Chr).PixelPos =
        s.CursPos * (cfg.FONTSIZE + 1) + cfg.FONTSIZE
    ∧ (POV_WriteChar cfg font s Chr).PovDisplayData.length = cfg.RESOLUTION
    ∧ (∀ j, (POV_WriteChar cfg font s Chr).PovDisplayData.getD j 0 =
        if s.CursPos * (cfg.FONTSIZE + 1) ≤ j ∧
            j < s.CursPos * (cfg.FONTSIZE + 1) + cfg.FONTSIZE then
          font (Chr - 32) (j - s.CursPos * (cfg.FONTSIZE + 1))
        else if j = s.CursPos * (cfg.FONTSIZE + 1) + cfg.FONTSIZE then 0
        else s.PovDisplayData.getD j 0) := by
  have hmod : s.CursPos * (cfg.FONTSIZE + 1) % 256 = s.CursPos * (cfg.FONTSIZE + 1) :=
    Nat.mod_eq_of_lt (by omega)
  have hdef : POV_WriteChar cfg font s Chr =
      { PovDisplayData :=
          (writeCharLoop cfg font Chr 0 cfg.FONTSIZE
            (s.CursPos * (cfg.FONTSIZE + 1) % 256) s.PovDisplayData).1.set
            (writeCharLoop cfg font Chr 0 cfg.FONTSIZE
              (s.CursPos * (cfg.FONTSIZE + 1) % 256) s.PovDisplayData).2 0
        CursPos := (s.CursPos + 1) % POVDigits cfg
        PixelPos := (writeCharLoop cfg font Chr 0 cfg.FONTSIZE
          (s.CursPos * (cfg.FONTSIZE + 1) % 256) s.PovDisplayData).2 } := rfl
  rw [hdef, hmod]
  obtain ⟨hsnd, hlen2, hget⟩ := writeCharLoop_spec cfg font Chr cfg.FONTSIZE 0
    (s.CursPos * (cfg.FONTSIZE + 1)) s.PovDisplayData hcurs hlen
  refine ⟨rfl, hsnd, by rw [List.length_set]; exact hlen2, ?_⟩
  intro j
  show ((writeCharLoop cfg font Chr 0 cfg.FONTSIZE
      (s.CursPos * (cfg.FONTSIZE + 1)) s.PovDisplayData).1.set
      (writeCharLoop cfg font Chr 0 cfg.FONTSIZE
        (s.CursPos * (cfg.FONTSIZE + 1)) s.PovDisplayData).2 0).getD j 0 = _
  rw [hsnd]
  by_cases hjb : j = s.CursPos * (cfg.FONTSIZE + 1) + cfg.FONTSIZE
  · subst hjb
    rw [getD_set_self _ _ _ (by omega), if_neg (by omega), if_pos rfl]
  · rw [getD_set_ne _ _ (fun h => hjb h.symm), hget j]
    by_cases hr : s.CursPos * (cfg.FONTSIZE + 1) ≤ j ∧
        j < s.CursPos * (cfg.FONTSIZE + 1) + cfg.FONTSIZE
    · rw [if_pos hr, if_pos hr, Nat.zero_add]
    · rw [if_neg hr, if_neg hr, if_neg hjb]

/-- Claim C9: `writeString("AB")` from cursor slot 0 (with at least two
character slots, i.e. `2*(FONTSIZE+1) ≤ RESOLUTION ≤ 256`) writes the
`FONTSIZE` glyph columns of `A` at columns `0 … FONTSIZE-1`, a zero column at
`FONTSIZE`, the glyph columns of `B` at `FONTSIZE+1 … 2*FONTSIZE`, a zero
column at `2*FONTSIZE+1`, leaves all later columns unchanged, and leaves the
cursor at slot `2 % slotCount`. -/
theorem thmC9 (cfg : POVConfig) (font : Nat → Nat → Nat) (s : DrawState)
    (hlen : s.PovDisplayData.length = cfg.RESOLUTION)
    (hRES : cfg.RESOLUTION ≤ 256)
    (hF : 2 * (cfg.FONTSIZE + 1) ≤ cfg.RESOLUTION)
    (hcurs : s.CursPos = 0) :
    (∀ j, j < cfg.FONTSIZE →
      (POV_WriteString cfg font s [65, 66]).PovDisplayData.getD j 0 = font 33 j)
    ∧ (POV_WriteString cfg font s [65, 66]).PovDisplayData.getD cfg.FONTSIZE 0 = 0
    ∧ (∀ j, j < cfg.FONTSIZE →
      (POV_WriteString cfg font s [65, 66]).PovDisplayData.getD
        (cfg.FONTSIZE + 1 + j) 0 = font 34 j)
    ∧ (POV_WriteString cfg font s [65, 66]).PovDisplayData.getD
        (2 * cfg.FONTSIZE + 1) 0 = 0
    ∧ (∀ j, 2 * cfg.FONTSIZE + 2 ≤ j →
      (POV_WriteString cfg font s [65, 66]).PovDisplayData.getD j 0 =
        s.PovDisplayData.getD j 0)
    ∧ (POV_WriteString cfg font s [65, 66]).CursPos = 2 % POVDigits cfg := by
  have hD2 : 2 ≤ POVDigits cfg := by
    unfold POVDigits
    rw [Nat.le_div_iff_mul_le (by omega)]
    omega
  obtain ⟨ha1, ha2, ha3, ha4⟩ := writeChar_spec cfg font s 65 hlen hRES
    (by rw [hcurs]; omega)
  rw [hcurs] at ha1 ha4
  rw [Nat.zero_mul] at ha4
  have hc1 : (POV_WriteChar cfg font s 65).CursPos = 1 := by
    rw [ha1]
    exact Nat.mod_eq_of_lt (by omega)
  obtain ⟨hb1, hb2, hb3, hb4⟩ :=
    writeChar_spec cfg font (POV_WriteChar cfg font s 65) 66 ha3 hRES
      (by rw [hc1]; omega)
  rw [hc1] at hb1
  rw [hc1, Nat.one_mul] at hb4
  have hres : POV_WriteString cfg font s [65, 66] =
      POV_WriteChar cfg font (POV_WriteChar cfg font s 65) 66 := rfl
  have h6532 : (65 : Nat) - 32 = 33 := rfl
  have h6632 : (66 : Nat) - 32 = 34 := rfl
  rw [h6532] at ha4
  rw [h6632] at hb4
  refine ⟨?_, ?_, ?_, ?_, ?_, ?_⟩
  · intro j hj
    rw [hres, hb4 j,
      if_neg (show ¬(cfg.FONTSIZE + 1 ≤ j ∧ j < cfg.FONTSIZE + 1 + cfg.FONTSIZE) by omega),
      if_neg (show ¬(j = cfg.FONTSIZE + 1 + cfg.FONTSIZE) by omega), ha4 j,
      if_pos (show 0 ≤ j ∧ j < 0 + cfg.FONTSIZE by omega), Nat.sub_zero]
  · rw [hres, hb4 cfg.FONTSIZE,
      if_neg (show ¬(cfg.FONTSIZE + 1 ≤ cfg.FONTSIZE ∧
        cfg.FONTSIZE < cfg.FONTSIZE + 1 + cfg.FONTSIZE) by omega),
      if_neg (show ¬(cfg.FONTSIZE = cfg.FONTSIZE + 1 + cfg.FONTSIZE) by omega),
      ha4 cfg.FONTSIZE,
      if_neg (show ¬(0 ≤ cfg.FONTSIZE ∧ cfg.FONTSIZE < 0 + cfg.FONTSIZE) by omega),
      if_pos (show cfg.FONTSIZE = 0 + cfg.FONTSIZE by omega)]
  · intro j hj
    rw [hres, hb4 (cfg.FONTSIZE + 1 + j),
      if_pos (show cfg.FONTSIZE + 1 ≤ cfg.FONTSIZE + 1 + j ∧
        cfg.FONTSIZE + 1 + j < cfg.FONTSIZE + 1 + cfg.FONTSIZE by omega)]
    have : cfg.FONTSIZE + 1 + j - (cfg.FONTSIZE + 1) = j := by omega
    rw [this]
  · rw [hres, hb4 (2 * cfg.FONTSIZE + 1),
      if_neg (show ¬(cfg.FONTSIZE + 1 ≤ 2 * cfg.FONTSIZE + 1 ∧
        2 * cfg.FONTSIZE + 1 < cfg.FONTSIZE + 1 + cfg.FONTSIZE) by omega),
      if_pos (show 2 * cfg.FONTSIZE + 1 = cfg.FONTSIZE + 1 + cfg.FONTSIZE by omega)]
  · intro j hj
    rw [hres, hb4 j,
      if_neg (show ¬(cfg.FONTSIZE + 1 ≤ j ∧ j < cfg.FONTSIZE + 1 + cfg.FONTSIZE) by omega),
      if_neg (show ¬(j = cfg.FONTSIZE + 1 + cfg.FONTSIZE) by omega), ha4 j,
      if_neg (show ¬(0 ≤ j ∧ j < 0 + cfg.FONTSIZE) by omega),
      if_neg (show ¬(j = 0 + cfg.FONTSIZE) by omega)]
  · rw [hres, hb1]

/-- Witness for C9 at a concrete configuration and font. -/
theorem thmC9_witness :
    (POV_WriteString ⟨12, 8, 5, 72⟩ (fun a b => 100 * a + b)
        ⟨List.replicate 12 0, 0, 0⟩ [65, 66]).PovDisplayData.getD 2 0 =
      (fun a b => 100 * a + b) 33 2
    ∧ (POV_WriteString ⟨12, 8, 5, 72⟩ (fun a b => 100 * a + b)
        ⟨List.replicate 12 0, 0, 0⟩ [65, 66]).PovDisplayData.getD 11 0 = 0
    ∧ (POV_WriteString ⟨12, 8, 5, 72⟩ (fun a b => 100 * a + b)
        ⟨List.replicate 12 0, 0, 0⟩ [65, 66]).CursPos = 2 % POVDigits ⟨12, 8, 5, 72⟩ := by
  have h := thmC9 ⟨12, 8, 5, 72⟩ (fun a b => 100 * a + b)
    ⟨List.replicate 12 0, 0, 0⟩ (by decide) (by decide) (by decide) rfl
  exact ⟨h.1 2 (by decide), h.2.2.2.1, h.2.2.2.2.2⟩

/-- Claim C10: with at least one character slot (`0 < POVDigits`, i.e.
`FONTSIZE + 1 ≤ RESOLUTION`) and `RESOLUTION ≤ 256`, every public drawing
operation preserves the invariant `CursPos < POVDigits` (the initial state
after `POV_Init`/`POV_Clear` has `CursPos = 0`, which satisfies it);
consequently the window written by `POV_WriteChar` — glyph columns
`CursPos*(FONTSIZE+1) … CursPos*(FONTSIZE+1)+FONTSIZE-1` and the blank column
at `CursPos*(FONTSIZE+1)+FONTSIZE` (the final `PixelPos`) — lies strictly
below `RESOLUTION`. -/
theorem thmC10 (cfg : POVConfig) (font : Nat → Nat → Nat)
    (hRES : cfg.RESOLUTION ≤ 256) (hD : 0 < POVDigits cfg) :
    (∀ s, (POV_Clear cfg s).CursPos < POVDigits cfg)
    ∧ (∀ s Pos, s.CursPos < POVDigits cfg →
        (POV_SetCursor cfg s Pos).CursPos < POVDigits cfg)
    ∧ (∀ s Chr, (POV_WriteChar cfg font s Chr).CursPos < POVDigits cfg)
    ∧ (∀ s Chr Pos, s.CursPos < POVDigits cfg →
        (POV_WriteCharInPos cfg font s Chr Pos).CursPos < POVDigits cfg)
    ∧ (∀ s Str, s.CursPos < POVDigits cfg →
        (POV_WriteString cfg font s Str).CursPos < POVDigits cfg)
    ∧ (∀ s Str Pos, s.CursPos < POVDigits cfg →
        (POV_WriteStringInPos cfg font s Str Pos).CursPos < POVDigits cfg)
    ∧ (∀ curs, curs < POVDigits cfg →
        curs * (cfg.FONTSIZE + 1) + cfg.FONTSIZE < cfg.RESOLUTION)
    ∧ (∀ s Chr, s.CursPos < POVDigits cfg →
        s.PovDisplayData.length = cfg.RESOLUTION →
        (POV_WriteChar cfg font s Chr).PixelPos < cfg.RESOLUTION) := by
  have hbound : ∀ curs, curs < POVDigits cfg →
      curs * (cfg.FONTSIZE + 1) + cfg.FONTSIZE < cfg.RESOLUTION := by
    intro curs hc
    have h1 : curs + 1 ≤ POVDigits cfg := hc
    have h2 : (curs + 1) * (cfg.FONTSIZE + 1) ≤ POVDigits cfg * (cfg.FONTSIZE + 1) :=
      Nat.mul_le_mul_right _ h1
    have h3 : POVDigits cfg * (cfg.FONTSIZE + 1) ≤ cfg.RESOLUTION :=
      Nat.div_mul_le_self _ _
    have h4 : (curs + 1) * (cfg.FONTSIZE + 1) =
        curs * (cfg.FONTSIZE + 1) + cfg.FONTSIZE + 1 := by ring
    omega
  have hwc : ∀ s Chr, (POV_WriteChar cfg font s Chr).CursPos < POVDigits cfg := by
    intro s Chr
    show (s.CursPos + 1) % POVDigits cfg < POVDigits cfg
    exact Nat.mod_lt _ hD
  have hsc : ∀ s Pos, s.CursPos < POVDigits cfg →
      (POV_SetCursor cfg s Pos).CursPos < POVDigits cfg := by
    intro s Pos hs
    unfold POV_SetCursor
    by_cases h : Pos < cfg.RESOLUTION / (cfg.FONTSIZE + 1)
    · rw [if_pos h]
      exact h
    · rw [if_neg h]
      exact hs
  have hws : ∀ Str s, s.CursPos < POVDigits cfg →
      (POV_WriteString cfg font s Str).CursPos < POVDigits cfg := by
    intro Str
    induction Str with
    | nil => intro s hs; exact hs
    | cons c cs ih =>
      intro s _
      exact ih _ (hwc s c)
  refine ⟨fun s => hD, hsc, hwc, ?_, fun s Str hs => hws Str s hs, ?_, hbound, ?_⟩
  · intro s Chr Pos hs
    unfold POV_WriteCharInPos
    by_cases h : Pos < cfg.RESOLUTION / (cfg.FONTSIZE + 1)
    · rw [if_pos h]
      exact hwc _ _
    · rw [if_neg h]
      exact hs
  · intro s Str Pos hs
    unfold POV_WriteStringInPos
    exact hws Str _ (hsc s Pos hs)
  · intro s Chr hs hlen
    have h := (writeChar_spec cfg font s Chr hlen hRES (hbound _ hs)).2.1
    rw [h]
    exact hbound _ hs

/-- Witness for C10 at a concrete configuration. -/
theorem thmC10_witness :
    (POV_WriteString ⟨12, 8, 5, 72⟩ (fun _ _ => 3)
        ⟨List.replicate 12 0, 0, 0⟩ [65, 66, 67]).CursPos < POVDigits ⟨12, 8, 5, 72⟩
    ∧ (POV_WriteChar ⟨12, 8, 5, 72⟩ (fun _ _ => 3)
        ⟨List.replicate 12 0, 1, 6⟩ 65).PixelPos < 12 := by
  have h := thmC10 ⟨12, 8, 5, 72⟩ (fun _ _ => 3) (by decide) (by decide)
  exact ⟨h.2.2.2.2.1 ⟨List.replicate 12 0, 0, 0⟩ [65, 66, 67] (by decide),
    h.2.2.2.2.2.2.2 ⟨List.replicate 12 0, 1, 6⟩ 65 (by decide) (by decide)⟩

/-! ### Claim C1: the reference-event (input-capture) handler -/

/-- Counterexample to claim C1 as stated: with `RESOLUTION = 64`, overflow
tally 64 and captured value 0, the elapsed ticks are `E = 64 * 65536 =
4194304` and `⌊E / RESOLUTION⌋ = 65536`, but the period actually programmed is
`(uint16_t) 65536 = 0` — the claim's `floor(E / RESOLUTION)` ignores the
16-bit truncation. -/
theorem thmC1_counterexample :
    (captureCallback ⟨64, 8, 5, 72⟩
        ⟨List.replicate 64 0, 0, 64, 0, 0, 0, 0, 0, 0, []⟩ 0).tim3Period ≠
      (0 + 64 * 65536) / 64 := by
  decide

/-- Claim C1 (amended): on a reference event with captured value `cap`
(`uint16_t`) and overflow tally `ICU_TIM2_OVC` (`uint16_t`), the handler
computes `E = cap + ICU_TIM2_OVC * 65536` exactly (no `uint32_t` overflow),
programs the pacer period to `⌊E / RESOLUTION⌋` reduced modulo 65536 (the
value is truncated to a `uint16_t`), resets the pacer column index to 0,
immediately emits framebuffer column 0 to the physical output, and resets the
overflow tally and the TIM2 tick counter to 0 (the auto-reload register gets
`period * sysClockFreq - 1` as a `uint16_t`). -/
theorem thmC1 (cfg : POVConfig) (s : SyncState) (cap : Nat)
    (_hRES : 0 < cfg.RESOLUTION) (hcap : cap < 65536)
    (hovc : s.ICU_TIM2_OVC < 65536) :
    (captureCallback cfg s cap).TimeDifference = cap + s.ICU_TIM2_OVC * 65536
    ∧ (captureCallback cfg s cap).tim3Period =
        ((cap + s.ICU_TIM2_OVC * 65536) / cfg.RESOLUTION) % 65536
    ∧ (captureCallback cfg s cap).PixelsCounter = 0
    ∧ (captureCallback cfg s cap).emitted =
        POV_IntervalsDisplay cfg (s.PovDisplayData.getD 0 0) :: s.emitted
    ∧ (captureCallback cfg s cap).ICU_TIM2_OVC = 0
    ∧ (captureCallback cfg s cap).tim2Counter = 0
    ∧ (captureCallback cfg s cap).tim3Counter = 0
    ∧ (captureCallback cfg s cap).tim3AutoReload =
        ((((cap + s.ICU_TIM2_OVC * 65536) / cfg.RESOLUTION) % 65536) *
          (cfg.sysClockFreq % 256) + 65535) % 65536 := by
  have h1 : cap % 65536 = cap := Nat.mod_eq_of_lt hcap
  have h2 : (cap + s.ICU_TIM2_OVC * 65536) % 4294967296 =
      cap + s.ICU_TIM2_OVC * 65536 := Nat.mod_eq_of_lt (by omega)
  have hdef : captureCallback cfg s cap =
      { PovDisplayData := s.PovDisplayData
        PixelsCounter := 0
        ICU_TIM2_OVC := 0
        Capture := cap % 65536
        TimeDifference := (cap % 65536 + s.ICU_TIM2_OVC * 65536) % 4294967296
        tim2Counter := 0
        tim3AutoReload :=
          (((((cap % 65536 + s.ICU_TIM2_OVC * 65536) % 4294967296) /
            cfg.RESOLUTION) % 65536) * (cfg.sysClockFreq % 256) + 65535) % 65536
        tim3Counter := 0
        tim3Period :=
          (((cap % 65536 + s.ICU_TIM2_OVC * 65536) % 4294967296) /
            cfg.RESOLUTION) % 65536
        emitted :=
          POV_IntervalsDisplay cfg (s.PovDisplayData.getD 0 0) :: s.emitted } := by
    rfl
  rw [hdef]
  rw [h1, h2]
  exact ⟨rfl, rfl, rfl, rfl, rfl, rfl, rfl, rfl⟩

/-- Witness for C1 at a concrete reference event. -/
theorem thmC1_witness :
    (captureCallback ⟨64, 8, 5, 72⟩
        ⟨List.replicate 64 0, 5, 3, 0, 0, 9, 0, 7, 3, []⟩ 100).tim3Period =
      ((100 + 3 * 65536) / 64) % 65536
    ∧ (captureCallback ⟨64, 8, 5, 72⟩
        ⟨List.replicate 64 0, 5, 3, 0, 0, 9, 0, 7, 3, []⟩ 100).PixelsCounter = 0
    ∧ (captureCallback ⟨64, 8, 5, 72⟩
        ⟨List.replicate 64 0, 5, 3, 0, 0, 9, 0, 7, 3, []⟩ 100).ICU_TIM2_OVC = 0 := by
  have h := thmC1 ⟨64, 8, 5, 72⟩ ⟨List.replicate 64 0, 5, 3, 0, 0, 9, 0, 7, 3, []⟩
    100 (by decide) (by decide) (by decide)
  exact ⟨h.2.1, h.2.2.1, h.2.2.2.2.1⟩

/-! ### Claim C2: the pacer does not actually park -/

set_option maxRecDepth 100000 in
/-- Claim C2 fails on the code (code bug): with `RESOLUTION = 64` and the
pacer parked at `PixelsCounter = RESOLUTION = 64`, one further TIM3 period
tick advances the `uint8_t` counter to 65 — exceeding `RESOLUTION` — and after
192 further ticks the counter wraps around to 0 and the handler emits
framebuffer column 0 again although no reference event occurred, contradicting
the claim (and the handler's own documentation that the display is then
"completed"). -/
theorem thmC2 :
    (periodElapsedTIM3 ⟨64, 8, 5, 72⟩
        ⟨List.replicate 64 9, 64, 0, 0, 0, 0, 0, 0, 0, []⟩).PixelsCounter = 65
    ∧ 64 < 65
    ∧ ((fun st => periodElapsedTIM3 ⟨64, 8, 5, 72⟩ st)^[192]
        ⟨List.replicate 64 9, 64, 0, 0, 0, 0, 0, 0, 0, []⟩).PixelsCounter = 0
    ∧ ((fun st => periodElapsedTIM3 ⟨64, 8, 5, 72⟩ st)^[192]
        ⟨List.replicate 64 9, 64, 0, 0, 0, 0, 0, 0, 0, []⟩).emitted =
      [POV_IntervalsDisplay ⟨64, 8, 5, 72⟩ 9] := by
  refine ⟨rfl, by omega, ?_, ?_⟩ <;> decide

/-! ### Claim C6: drawLine terminates and only sets pixels ON -/

theorem i8_eq_self (x : Int) (h1 : -128 ≤ x) (h2 : x ≤ 127) : i8 x = x := by
  unfold i8
  omega

/-- One unfolding of the Bresenham `while (1)` loop when fuel remains. -/
theorem bresLoop_succ (cfg : POVConfig) (C2v R2v : Nat) (dx dy sx sy : Int)
    (fuel C1v R1v : Nat) (err : Int) (fb : List Nat) :
    bresLoop cfg C2v R2v dx dy sx sy (fuel + 1) C1v R1v err fb =
      if R1v = R2v ∧ C1v = C2v then some (POV_WritePixel cfg fb R1v C1v ON)
      else
        bresLoop cfg C2v R2v dx dy sx sy fuel
          (if err > -dx then (((C1v : Int) + sx) % 256).toNat else C1v)
          (if err < dy then (((R1v : Int) + sy) % 256).toNat else R1v)
          (if err < dy then i8 ((if err > -dx then i8 (err - dy) else err) + dx)
           else (if err > -dx then i8 (err - dy) else err))
          (POV_WritePixel cfg fb R1v C1v ON) := rfl

/-- Fuel monotonicity: a run that finishes with `f1` steps of fuel finishes
with the same result for any larger fuel. -/
theorem bresLoop_mono (cfg : POVConfig) (C2v R2v : Nat) (dx dy sx sy : Int) :
    ∀ (f1 f2 C1v R1v : Nat) (err : Int) (fb r : List Nat), f1 ≤ f2 →
    bresLoop cfg C2v R2v dx dy sx sy f1 C1v R1v err fb = some r →
    bresLoop cfg C2v R2v dx dy sx sy f2 C1v R1v err fb = some r := by
  intro f1
  induction f1 with
  | zero =>
    intro f2 C1v R1v err fb r _ h
    exact absurd h (by
      show bresLoop cfg C2v R2v dx dy sx sy 0 C1v R1v err fb ≠ some r
      intro hc
      simp [bresLoop] at hc)
  | succ f1 ih =>
    intro f2 C1v R1v err fb r hle h
    obtain ⟨f2', rfl⟩ : ∃ f2', f2 = f2' + 1 := ⟨f2 - 1, by omega⟩
    rw [bresLoop_succ] at h ⊢
    by_cases hend : R1v = R2v ∧ C1v = C2v
    · rw [if_pos hend] at h ⊢
      exact h
    · rw [if_neg hend] at h ⊢
      exact ih f2' _ _ _ _ _ (by omega) h

/-- `POV_WritePixel` preserves the framebuffer length. -/
theorem writePixel_length (cfg : POVConfig) (fb : List Nat) (R C S : Nat) :
    (POV_WritePixel cfg fb R C S).length = fb.length := by
  unfold POV_WritePixel
  by_cases hg : (S = ON ∨ S = OFF) ∧ R < cfg.PIXELS ∧ C < cfg.RESOLUTION
  · rw [if_pos hg]
    by_cases hS : S = ON
    · rw [if_pos hS, List.length_set]
    · rw [if_neg hS, List.length_set]
  · rw [if_neg hg]

/-- Plotting a pixel ON keeps all column values below 256 and never clears a
set bit (`PIXELS ≤ 8`). -/
theorem writePixel_on_bits (cfg : POVConfig) (fb : List Nat) (R C : Nat)
    (hwf : ∀ j, fb.getD j 0 < 256) :
    (∀ j, (POV_WritePixel cfg fb R C ON).getD j 0 < 256)
    ∧ (∀ c t, (fb.getD c 0).testBit t = true →
        ((POV_WritePixel cfg fb R C ON).getD c 0).testBit t = true) := by
  unfold POV_WritePixel
  by_cases hg : (ON = ON ∨ ON = OFF) ∧ R < cfg.PIXELS ∧ C < cfg.RESOLUTION
  · rw [if_pos hg, if_pos rfl]
    constructor
    · intro j
      by_cases hj : j < fb.length
      · by_cases hjC : j = C
        · subst hjC
          rw [getD_set_self _ _ _ hj]
          exact Nat.mod_lt _ (by omega)
        · rw [getD_set_ne _ _ (fun h => hjC h.symm)]
          exact hwf j
      · rw [List.getD_eq_default _ _ (by rw [List.length_set]; omega)]
        omega
    · intro c t hbit
      have hc : c < fb.length := by
        by_contra hc
        rw [List.getD_eq_default _ _ (by omega)] at hbit
        rw [Nat.zero_testBit] at hbit
        exact absurd hbit (by simp)
      have ht8 : t < 8 := by
        by_contra ht
        have h256 : (256 : Nat) ≤ 2 ^ t := by
          calc (256 : Nat) = 2 ^ 8 := by norm_num
          _ ≤ 2 ^ t := Nat.pow_le_pow_right (by omega) (by omega)
        rw [Nat.testBit_eq_false_of_lt
          (show fb.getD c 0 < 2 ^ t from lt_of_lt_of_le (hwf c) h256)] at hbit
        exact absurd hbit (by simp)
      by_cases hcC : c = C
      · subst hcC
        rw [getD_set_self _ _ _ hc, mod256_testBit _ _ ht8, Nat.testBit_lor, hbit]
        rfl
      · rw [getD_set_ne _ _ (fun h => hcC h.symm)]
        exact hbit
  · rw [if_neg hg]
    exact ⟨hwf, fun c t h => h⟩

/-- Along any finished Bresenham run the framebuffer length is preserved, all
columns stay byte-valued, and no set bit is ever cleared (only ON is
plotted). -/
theorem bresLoop_bits (cfg : POVConfig) (C2v R2v : Nat) (dx dy sx sy : Int) :
    ∀ (fuel C1v R1v : Nat) (err : Int) (fb r : List Nat),
    bresLoop cfg C2v R2v dx dy sx sy fuel C1v R1v err fb = some r →
    (∀ j, fb.getD j 0 < 256) →
    r.length = fb.length
    ∧ (∀ j, r.getD j 0 < 256)
    ∧ (∀ c t, (fb.getD c 0).testBit t = true → (r.getD c 0).testBit t = true) := by
  intro fuel
  induction fuel with
  | zero =>
    intro C1v R1v err fb r h
    exact absurd h (by
      intro hc
      simp [bresLoop] at hc)
  | succ fuel ih =>
    intro C1v R1v err fb r h hwf
    rw [bresLoop_succ] at h
    by_cases hend : R1v = R2v ∧ C1v = C2v
    · rw [if_pos hend] at h
      obtain rfl : POV_WritePixel cfg fb R1v C1v ON = r := by
        injection h
      refine ⟨writePixel_length _ _ _ _ _, ?_, ?_⟩
      · exact (writePixel_on_bits cfg fb R1v C1v hwf).1
      · exact (writePixel_on_bits cfg fb R1v C1v hwf).2
    · rw [if_neg hend] at h
      obtain ⟨hlen, hwf2, hmono⟩ := ih _ _ _ _ _ h
        (writePixel_on_bits cfg fb R1v C1v hwf).1
      refine ⟨by rw [hlen, writePixel_length], hwf2, ?_⟩
      intro c t hbit
      exact hmono c t ((writePixel_on_bits cfg fb R1v C1v hwf).2 c t hbit)

/-- Stepping a `uint8_t` coordinate by the fixed sign `s` toward the endpoint:
the wrap `% 256` is the identity and the remaining distance drops by one. -/
theorem bres_step_pos (p target : Nat) (s : Int) (m1 : Nat)
    (hs : s = 1 ∨ s = -1)
    (hrel : (p : Int) + s * ((m1 : Int) + 1) = target) (htb : target ≤ 255)
    (hpb : p ≤ 255) :
    (((p : Int) + s) % 256).toNat ≤ 255 ∧
      ((((p : Int) + s) % 256).toNat : Int) + s * (m1 : Int) = target := by
  rcases hs with rfl | rfl <;> constructor <;> omega

/-- Termination of the Bresenham loop in the column-major case
(`dy < dx ≤ 127`, `dy ≤ 7`): from any loop state satisfying the error-term
invariant, the loop reaches its `break` within `m + 1` iterations, where `m`
is the remaining number of column steps. -/
theorem bres_xmajor (cfg : POVConfig) (C2v R2v dxN dyN : Nat) (sx sy : Int)
    (hsx : sx = 1 ∨ sx = -1) (hsy : sy = 1 ∨ sy = -1)
    (hxy : dyN < dxN) (hdx : dxN ≤ 127) (hdy : dyN ≤ 7)
    (hC2b : C2v ≤ 255) (hR2b : R2v ≤ 255) :
    ∀ (m k C1v R1v : Nat) (err : Int) (fb : List Nat),
      m ≤ dxN → k ≤ dyN → C1v ≤ 255 → R1v ≤ 255 →
      (C1v : Int) + sx * m = C2v →
      (R1v : Int) + sy * k = R2v →
      err = ((dxN / 2 : Nat) : Int) - ((dxN : Int) - m) * dyN +
        ((dyN : Int) - k) * dxN →
      0 ≤ err → err ≤ 2 * ((dxN / 2 : Nat) : Int) →
      ∃ r, bresLoop cfg C2v R2v dxN dyN sx sy (m + 1) C1v R1v err fb = some r := by
  have hdy' : (dyN : Int) ≤ 7 := by exact_mod_cast hdy
  have hdx' : (dxN : Int) ≤ 127 := by exact_mod_cast hdx
  have hxy' : (dyN : Int) < (dxN : Int) := by exact_mod_cast hxy
  have hh2 : 2 * ((dxN / 2 : Nat) : Int) ≤ (dxN : Int) := by
    have h : 2 * (dxN / 2) ≤ dxN := by omega
    exact_mod_cast h
  have hh3 : (dxN : Int) ≤ 2 * ((dxN / 2 : Nat) : Int) + 1 := by
    have h : dxN ≤ 2 * (dxN / 2) + 1 := by omega
    exact_mod_cast h
  have hdy0 : (0 : Int) ≤ (dyN : Int) := by positivity
  intro m
  induction m with
  | zero =>
    intro k C1v R1v err fb hm hk hC1b hR1b hCrel hRrel herr h0 h2
    have hC : C1v = C2v := by
      rcases hsx with rfl | rfl <;> (push_cast at hCrel; omega)
    have hk0 : k = 0 := by
      by_contra hkne
      have hk1 : 1 ≤ k := by omega
      have hge : (dxN : Int) ≤ (k : Int) * (dxN : Int) := by
        have h := mul_le_mul_of_nonneg_right
          (show (1 : Int) ≤ (k : Int) by exact_mod_cast hk1)
          (show (0 : Int) ≤ (dxN : Int) by positivity)
        simpa using h
      have herr2 : err = ((dxN / 2 : Nat) : Int) - (k : Int) * (dxN : Int) := by
        rw [herr]; push_cast; ring
      omega
    have hR : R1v = R2v := by
      subst hk0
      rcases hsy with rfl | rfl <;> (push_cast at hRrel; omega)
    refine ⟨POV_WritePixel cfg fb R1v C1v ON, ?_⟩
    rw [bresLoop_succ, if_pos ⟨hR, hC⟩]
  | succ m ih =>
    intro k C1v R1v err fb hm hk hC1b hR1b hCrel hRrel herr h0 h2
    have hCne : C1v ≠ C2v := by
      rcases hsx with rfl | rfl <;> (intro hc; rw [hc] at hCrel; push_cast at hCrel; omega)
    rw [bresLoop_succ, if_neg (fun h => hCne h.2)]
    have hxfire : err > -(dxN : Int) := by omega
    rw [if_pos hxfire, if_pos hxfire,
      i8_eq_self (err - (dyN : Int)) (by omega) (by omega)]
    obtain ⟨hCb', hCrel'⟩ := bres_step_pos C1v C2v sx m hsx
      (by push_cast at hCrel; exact_mod_cast hCrel) hC2b hC1b
    by_cases hy : err < (dyN : Int)
    · have hk1 : 1 ≤ k := by
        by_contra hkne
        have hk0 : k = 0 := by omega
        subst hk0
        have herr3 : err = ((dxN / 2 : Nat) : Int) + ((m : Int) + 1) * dyN := by
          rw [herr]; push_cast; ring
        have hge : (dyN : Int) ≤ ((m : Int) + 1) * (dyN : Int) := by
          have h := mul_le_mul_of_nonneg_right
            (show (1 : Int) ≤ (m : Int) + 1 by omega) hdy0
          simpa using h
        have hh0 : (0 : Int) ≤ ((dxN / 2 : Nat) : Int) := by positivity
        omega
      obtain ⟨k0, rfl⟩ : ∃ k0, k = k0 + 1 := ⟨k - 1, by omega⟩
      rw [if_pos hy, if_pos hy,
        i8_eq_self (err - (dyN : Int) + (dxN : Int)) (by omega) (by omega)]
      obtain ⟨hRb', hRrel'⟩ := bres_step_pos R1v R2v sy k0 hsy
        (by push_cast at hRrel; exact_mod_cast hRrel) hR2b hR1b
      exact ih (k0) _ _ _ _ (by omega) (by omega) hCb' hRb' hCrel' hRrel'
        (by rw [herr]; push_cast; ring) (by omega) (by omega)
    · rw [if_neg hy, if_neg hy]
      exact ih k _ _ _ _ (by omega) hk hCb' hR1b hCrel' hRrel
        (by rw [herr]; push_cast; ring) (by omega) (by omega)

/-- Termination of the Bresenham loop in the row-major case
(`dx ≤ dy ≤ 7`): from any loop state satisfying the error-term invariant, the
loop reaches its `break` within `k + 1` iterations, where `k` is the remaining
number of row steps. -/
theorem bres_ymajor (cfg : POVConfig) (C2v R2v dxN dyN : Nat) (sx sy : Int)
    (hsx : sx = 1 ∨ sx = -1) (hsy : sy = 1 ∨ sy = -1)
    (hxy : dxN ≤ dyN) (hdy : dyN ≤ 7)
    (hC2b : C2v ≤ 255) (hR2b : R2v ≤ 255) :
    ∀ (k m C1v R1v : Nat) (err : Int) (fb : List Nat),
      m ≤ dxN → k ≤ dyN → C1v ≤ 255 → R1v ≤ 255 →
      (C1v : Int) + sx * m = C2v →
      (R1v : Int) + sy * k = R2v →
      err = -((dyN / 2 : Nat) : Int) - ((dxN : Int) - m) * dyN +
        ((dyN : Int) - k) * dxN →
      -(2 * ((dyN / 2 : Nat) : Int)) ≤ err → err ≤ 0 →
      ∃ r, bresLoop cfg C2v R2v dxN dyN sx sy (k + 1) C1v R1v err fb = some r := by
  have hdy' : (dyN : Int) ≤ 7 := by exact_mod_cast hdy
  have hdx' : (dxN : Int) ≤ 7 := by
    have h : dxN ≤ 7 := by omega
    exact_mod_cast h
  have hxy' : (dxN : Int) ≤ (dyN : Int) := by exact_mod_cast hxy
  have hh2 : 2 * ((dyN / 2 : Nat) : Int) ≤ (dyN : Int) := by
    have h : 2 * (dyN / 2) ≤ dyN := by omega
    exact_mod_cast h
  have hh3 : (dyN : Int) ≤ 2 * ((dyN / 2 : Nat) : Int) + 1 := by
    have h : dyN ≤ 2 * (dyN / 2) + 1 := by omega
    exact_mod_cast h
  have hdx0 : (0 : Int) ≤ (dxN : Int) := by positivity
  have hh0 : (0 : Int) ≤ ((dyN / 2 : Nat) : Int) := by positivity
  intro k
  induction k with
  | zero =>
    intro m C1v R1v err fb hm hk hC1b hR1b hCrel hRrel herr h0 h2
    have hR : R1v = R2v := by
      rcases hsy with rfl | rfl <;> (push_cast at hRrel; omega)
    have hm0 : m = 0 := by
      by_cases hdyz : dyN = 0
      · omega
      · by_contra hmne
        have hm1 : 1 ≤ m := by omega
        have hge : (dyN : Int) ≤ (m : Int) * (dyN : Int) := by
          have h := mul_le_mul_of_nonneg_right
            (show (1 : Int) ≤ (m : Int) by exact_mod_cast hm1)
            (show (0 : Int) ≤ (dyN : Int) by positivity)
          simpa using h
        have hhlt : ((dyN / 2 : Nat) : Int) < (dyN : Int) := by
          have h : dyN / 2 < dyN := Nat.div_lt_self (by omega) (by omega)
          exact_mod_cast h
        have herr2 : err = -((dyN / 2 : Nat) : Int) + (m : Int) * (dyN : Int) := by
          rw [herr]; push_cast; ring
        omega
    have hC : C1v = C2v := by
      subst hm0
      rcases hsx with rfl | rfl <;> (push_cast at hCrel; omega)
    refine ⟨POV_WritePixel cfg fb R1v C1v ON, ?_⟩
    rw [bresLoop_succ, if_pos ⟨hR, hC⟩]
  | succ k ih =>
    intro m C1v R1v err fb hm hk hC1b hR1b hCrel hRrel herr h0 h2
    have hRne : R1v ≠ R2v := by
      rcases hsy with rfl | rfl <;> (intro hc; rw [hc] at hRrel; push_cast at hRrel; omega)
    rw [bresLoop_succ, if_neg (fun h => hRne h.1)]
    have hyfire : err < (dyN : Int) := by omega
    obtain ⟨hRb', hRrel'⟩ := bres_step_pos R1v R2v sy k hsy
      (by push_cast at hRrel; exact_mod_cast hRrel) hR2b hR1b
    by_cases hx : err > -(dxN : Int)
    · have hm1 : 1 ≤ m := by
        by_contra hmne
        have hm0 : m = 0 := by omega
        subst hm0
        have herr3 : err = -((dyN / 2 : Nat) : Int) - ((k : Int) + 1) * dxN := by
          rw [herr]; push_cast; ring
        have hge : (dxN : Int) ≤ ((k : Int) + 1) * (dxN : Int) := by
          have h := mul_le_mul_of_nonneg_right
            (show (1 : Int) ≤ (k : Int) + 1 by omega) hdx0
          simpa using h
        omega
      obtain ⟨m0, rfl⟩ : ∃ m0, m = m0 + 1 := ⟨m - 1, by omega⟩
      rw [if_pos hx, if_pos hx,
        i8_eq_self (err - (dyN : Int)) (by omega) (by omega),
        if_pos hyfire, if_pos hyfire,
        i8_eq_self (err - (dyN : Int) + (dxN : Int)) (by omega) (by omega)]
      obtain ⟨hCb', hCrel'⟩ := bres_step_pos C1v C2v sx m0 hsx
        (by push_cast at hCrel; exact_mod_cast hCrel) hC2b hC1b
      exact ih _ _ _ _ _ (by omega) (by omega) hCb' hRb' hCrel' hRrel'
        (by rw [herr]; push_cast; ring) (by omega) (by omega)
    · rw [if_neg hx, if_neg hx, if_pos hyfire, if_pos hyfire,
        i8_eq_self (err + (dxN : Int)) (by omega) (by omega)]
      exact ih m _ _ _ _ hm (by omega) hC1b hRb' hCrel hRrel'
        (by rw [herr]; push_cast; ring) (by omega) (by omega)

/-- Claim C6: for in-bounds endpoints (with `RESOLUTION ≤ 128` and
`PIXELS ≤ 8`, so the `int8_t` Bresenham locals cannot overflow), the
`while (1)` stepping loop of `POV_DrawLine` reaches the state where both
coordinates equal the endpoint (it returns `some` within the fuel, i.e.
terminates), `POV_DrawLine` returns that framebuffer, the length is preserved,
and along the way pixels are only set ON — no pixel is ever cleared. -/
theorem thmC6 (cfg : POVConfig) (fb : List Nat) (hwf : FBWF cfg fb)
    (hRES : cfg.RESOLUTION ≤ 128) (hPIX : cfg.PIXELS ≤ 8)
    (Column1 Row1 Column2 Row2 : Nat)
    (hC1 : Column1 < cfg.RESOLUTION) (hR1 : Row1 < cfg.PIXELS)
    (hC2 : Column2 < cfg.RESOLUTION) (hR2 : Row2 < cfg.PIXELS) :
    ∃ r, bresLoop cfg Column2 Row2
        (i8 (((Column2 : Int) - (Column1 : Int)).natAbs : Nat))
        (i8 (((Row2 : Int) - (Row1 : Int)).natAbs : Nat))
        (if Column1 < Column2 then 1 else -1)
        (if Row1 < Row2 then 1 else -1)
        65536 Column1 Row1
        (i8 (tdiv2
          (if i8 (((Column2 : Int) - (Column1 : Int)).natAbs : Nat) >
              i8 (((Row2 : Int) - (Row1 : Int)).natAbs : Nat) then
            i8 (((Column2 : Int) - (Column1 : Int)).natAbs : Nat)
          else -i8 (((Row2 : Int) - (Row1 : Int)).natAbs : Nat)))) fb = some r
      ∧ POV_DrawLine cfg fb Column1 Row1 Column2 Row2 = r
      ∧ r.length = fb.length
      ∧ (∀ rr cc, POV_ReadPixel cfg fb rr cc = ON →
          POV_ReadPixel cfg r rr cc = ON) := by
  obtain ⟨hlen, hval⟩ := hwf
  have hwf' : ∀ j, fb.getD j 0 < 256 := by
    intro j
    by_cases hj : j < fb.length
    · exact hval _ (getD_mem fb j hj)
    · rw [List.getD_eq_default _ _ (by omega)]
      omega
  have hdxb : (((Column2 : Int) - (Column1 : Int)).natAbs : Nat) ≤ 127 := by omega
  have hdyb : (((Row2 : Int) - (Row1 : Int)).natAbs : Nat) ≤ 7 := by omega
  have hi8dx : i8 ((((Column2 : Int) - (Column1 : Int)).natAbs : Nat) : Int) =
      ((((Column2 : Int) - (Column1 : Int)).natAbs : Nat) : Int) :=
    i8_eq_self _ (by omega) (by omega)
  have hi8dy : i8 ((((Row2 : Int) - (Row1 : Int)).natAbs : Nat) : Int) =
      ((((Row2 : Int) - (Row1 : Int)).natAbs : Nat) : Int) :=
    i8_eq_self _ (by omega) (by omega)
  have hsx : (if Column1 < Column2 then (1 : Int) else -1) = 1 ∨
      (if Column1 < Column2 then (1 : Int) else -1) = -1 := by
    by_cases h : Column1 < Column2 <;> simp [h]
  have hsy : (if Row1 < Row2 then (1 : Int) else -1) = 1 ∨
      (if Row1 < Row2 then (1 : Int) else -1) = -1 := by
    by_cases h : Row1 < Row2 <;> simp [h]
  have hCrel : (Column1 : Int) + (if Column1 < Column2 then (1 : Int) else -1) *
      ((((Column2 : Int) - (Column1 : Int)).natAbs : Nat) : Int) = Column2 := by
    by_cases h : Column1 < Column2
    · rw [if_pos h]; omega
    · rw [if_neg h]; omega
  have hRrel : (Row1 : Int) + (if Row1 < Row2 then (1 : Int) else -1) *
      ((((Row2 : Int) - (Row1 : Int)).natAbs : Nat) : Int) = Row2 := by
    by_cases h : Row1 < Row2
    · rw [if_pos h]; omega
    · rw [if_neg h]; omega
  have hdl0 : POV_DrawLine cfg fb Column1 Row1 Column2 Row2 =
      (match bresLoop cfg Column2 Row2
        (i8 (((Column2 : Int) - (Column1 : Int)).natAbs : Nat))
        (i8 (((Row2 : Int) - (Row1 : Int)).natAbs : Nat))
        (if Column1 < Column2 then 1 else -1)
        (if Row1 < Row2 then 1 else -1)
        65536 Column1 Row1
        (i8 (tdiv2
          (if i8 (((Column2 : Int) - (Column1 : Int)).natAbs : Nat) >
              i8 (((Row2 : Int) - (Row1 : Int)).natAbs : Nat) then
            i8 (((Column2 : Int) - (Column1 : Int)).natAbs : Nat)
          else -i8 (((Row2 : Int) - (Row1 : Int)).natAbs : Nat)))) fb with
        | some fb1 => fb1
        | none => fb) := by
    unfold POV_DrawLine
    rw [if_neg (by omega)]
  rw [hi8dx, hi8dy] at hdl0 ⊢
  by_cases hmaj : (((Row2 : Int) - (Row1 : Int)).natAbs : Nat) <
      (((Column2 : Int) - (Column1 : Int)).natAbs : Nat)
  · have hcond : ((((Row2 : Int) - (Row1 : Int)).natAbs : Nat) : Int) <
        ((((Column2 : Int) - (Column1 : Int)).natAbs : Nat) : Int) := by
      exact_mod_cast hmaj
    have htd : tdiv2 ((((Column2 : Int) - (Column1 : Int)).natAbs : Nat) : Int) =
        (((((Column2 : Int) - (Column1 : Int)).natAbs : Nat) / 2 : Nat) : Int) := by
      unfold tdiv2
      split <;> omega
    rw [if_pos hcond, htd, i8_eq_self _ (by omega) (by omega)] at hdl0 ⊢
    obtain ⟨r, hr⟩ := bres_xmajor cfg Column2 Row2
      (((Column2 : Int) - (Column1 : Int)).natAbs : Nat)
      (((Row2 : Int) - (Row1 : Int)).natAbs : Nat)
      _ _ hsx hsy hmaj hdxb hdyb (by omega) (by omega)
      (((Column2 : Int) - (Column1 : Int)).natAbs : Nat)
      (((Row2 : Int) - (Row1 : Int)).natAbs : Nat)
      Column1 Row1
      (((((Column2 : Int) - (Column1 : Int)).natAbs : Nat) / 2 : Nat) : Int)
      fb (Nat.le_refl _) (Nat.le_refl _) (by omega) (by omega)
      hCrel hRrel (by ring) (by omega) (by omega)
    have hr2 := bresLoop_mono cfg Column2 Row2 _ _ _ _ _ 65536 _ _ _ _ _
      (by omega) hr
    obtain ⟨hrlen, _, hrbits⟩ :=
      bresLoop_bits cfg Column2 Row2 _ _ _ _ _ _ _ _ _ _ hr2 hwf'
    refine ⟨r, hr2, ?_, hrlen, ?_⟩
    · rw [hr2] at hdl0
      exact hdl0
    · intro rr cc h
      rw [readPixel_testBit] at h ⊢
      by_cases hb : cc < cfg.RESOLUTION ∧ rr < cfg.PIXELS
      · rw [if_pos hb] at h ⊢
        by_cases hbit : (fb.getD cc 0).testBit rr
        · rw [if_pos (hrbits cc rr hbit)]
          rfl
        · rw [if_neg hbit] at h
          exact absurd h (by decide)
      · rw [if_neg hb] at h
        exact absurd h (by decide)
  · have hcond : ¬(((((Row2 : Int) - (Row1 : Int)).natAbs : Nat) : Int) <
        ((((Column2 : Int) - (Column1 : Int)).natAbs : Nat) : Int)) := by
      intro h
      exact hmaj (by exact_mod_cast h)
    have htd : tdiv2 (-((((Row2 : Int) - (Row1 : Int)).natAbs : Nat) : Int)) =
        -(((((Row2 : Int) - (Row1 : Int)).natAbs : Nat) / 2 : Nat) : Int) := by
      unfold tdiv2
      split <;> omega
    rw [if_neg hcond, htd, i8_eq_self _ (by omega) (by omega)] at hdl0 ⊢
    obtain ⟨r, hr⟩ := bres_ymajor cfg Column2 Row2
      (((Column2 : Int) - (Column1 : Int)).natAbs : Nat)
      (((Row2 : Int) - (Row1 : Int)).natAbs : Nat)
      _ _ hsx hsy (by omega) hdyb (by omega) (by omega)
      (((Row2 : Int) - (Row1 : Int)).natAbs : Nat)
      (((Column2 : Int) - (Column1 : Int)).natAbs : Nat)
      Column1 Row1
      (-(((((Row2 : Int) - (Row1 : Int)).natAbs : Nat) / 2 : Nat) : Int))
      fb (Nat.le_refl _) (Nat.le_refl _) (by omega) (by omega)
      hCrel hRrel (by ring) (by omega) (by omega)
    have hr2 := bresLoop_mono cfg Column2 Row2 _ _ _ _ _ 65536 _ _ _ _ _
      (by omega) hr
    obtain ⟨hrlen, _, hrbits⟩ :=
      bresLoop_bits cfg Column2 Row2 _ _ _ _ _ _ _ _ _ _ hr2 hwf'
    refine ⟨r, hr2, ?_, hrlen, ?_⟩
    · rw [hr2] at hdl0
      exact hdl0
    · intro rr cc h
      rw [readPixel_testBit] at h ⊢
      by_cases hb : cc < cfg.RESOLUTION ∧ rr < cfg.PIXELS
      · rw [if_pos hb] at h ⊢
        by_cases hbit : (fb.getD cc 0).testBit rr
        · rw [if_pos (hrbits cc rr hbit)]
          rfl
        · rw [if_neg hbit] at h
          exact absurd h (by decide)
      · rw [if_neg hb] at h
        exact absurd h (by decide)

/-- Witness for C6: a concrete diagonal line terminates (and the result is a
well-defined framebuffer of the same length), and a pixel set beforehand is
still ON afterwards. -/
theorem thmC6_witness :
    (POV_DrawLine ⟨8, 8, 5, 72⟩ (List.replicate 8 0) 0 0 4 4).length = 8
    ∧ POV_ReadPixel ⟨8, 8, 5, 72⟩
        (POV_DrawLine ⟨8, 8, 5, 72⟩
          (POV_WritePixel ⟨8, 8, 5, 72⟩ (List.replicate 8 0) 7 7 ON) 0 0 4 4)
        7 7 = ON := by
  obtain ⟨r1, ha1, ha2, ha3, ha4⟩ := thmC6 ⟨8, 8, 5, 72⟩ (List.replicate 8 0)
    (by unfold FBWF; decide) (by decide) (by decide) 0 0 4 4
    (by decide) (by decide) (by decide) (by decide)
  obtain ⟨r2, hb1, hb2, hb3, hb4⟩ := thmC6 ⟨8, 8, 5, 72⟩
    (POV_WritePixel ⟨8, 8, 5, 72⟩ (List.replicate 8 0) 7 7 ON)
    (by unfold FBWF; decide) (by decide) (by decide) 0 0 4 4
    (by decide) (by decide) (by decide) (by decide)
  constructor
  · rw [ha2, ha3]
    decide
  · rw [hb2]
    exact hb4 7 7 (by decide)
